import Mathlib

/-!
Verification development for the `sayouzone/sayou-healthcare` crawlers.

The repository contains three sequential web crawlers (health, nedrug, hira).
This file gives a shallow embedding of their data models and pure logic:
HTTP requests, HTML/spreadsheet extraction and the file system are external
effects, so they enter the embedding as explicit oracle inputs (a function or
an `Except` value describing the outcome of the external step), while all
decision logic, positional field mapping, pagination loops and CSV row
construction are translated directly from the Python source.

Python strings are modelled as Lean `String`/`List Char` (a Python `str` is a
sequence of code points); Python `None`-or-value cell contents are modelled by
the `PyVal` type below.
-/

set_option autoImplicit false

/-- A Python runtime value as it appears in spreadsheet row cells and record
fields of this repository: `none` models Python `None`, `str` a string and
`int` an integer. -/
inductive PyVal where
  | none
  | str (s : String)
  | int (n : Int)
  deriving DecidableEq, Repr

/-- Python truthiness of a `PyVal` (`if item and ...`). -/
def PyVal.truthy : PyVal → Bool
  | PyVal.none => false
  | PyVal.str s => !s.isEmpty
  | PyVal.int n => n != 0

/-- `str(value)` as the `csv` module writes a cell: `None` becomes the empty
field, strings are written as-is, integers in decimal. -/
def PyVal.cell : PyVal → String
  | PyVal.none => ""
  | PyVal.str s => s
  | PyVal.int n => toString n

/-! ### `urllib.parse` model

`parse_qs` / `parse_qsl` / `unquote` as used by
`DownloadParser.parse_query_params` (health) and `_parse_params`.
-/

namespace Urllib

/-- Value of a hexadecimal digit, `Option.none` for a non-hex character. -/
def hexVal (c : Char) : Option Nat :=
  if '0' ≤ c ∧ c ≤ '9' then some (c.toNat - '0'.toNat)
  else if 'a' ≤ c ∧ c ≤ 'f' then some (c.toNat - 'a'.toNat + 10)
  else if 'A' ≤ c ∧ c ≤ 'F' then some (c.toNat - 'A'.toNat + 10)
  else Option.none

/-- The Unicode replacement character emitted by `errors="replace"`. -/
def repl : Char := Char.ofNat 0xFFFD

/-- Admissible second byte of a UTF-8 sequence led by `b` (the constrained
ranges exclude overlong encodings, surrogates and values above U+10FFFF,
exactly as CPython's UTF-8 decoder does). -/
def utf8Second (b b2 : Nat) : Bool :=
  if b = 0xE0 then decide (0xA0 ≤ b2 ∧ b2 ≤ 0xBF)
  else if b = 0xED then decide (0x80 ≤ b2 ∧ b2 ≤ 0x9F)
  else if b = 0xF0 then decide (0x90 ≤ b2 ∧ b2 ≤ 0xBF)
  else if b = 0xF4 then decide (0x80 ≤ b2 ∧ b2 ≤ 0x8F)
  else decide (0x80 ≤ b2 ∧ b2 ≤ 0xBF)

/-- A UTF-8 continuation byte. -/
def utf8Cont (b : Nat) : Bool := decide (0x80 ≤ b ∧ b ≤ 0xBF)

/-- `bytes.decode("utf-8", errors="replace")`: one replacement character per
maximal invalid subpart, as in CPython. -/
def utf8DecodeReplace : List Nat → List Char
  | [] => []
  | b :: rest =>
    if b < 0x80 then Char.ofNat b :: utf8DecodeReplace rest
    else if 0xC2 ≤ b ∧ b ≤ 0xDF then
      match rest with
      | [] => [repl]
      | b2 :: rest2 =>
        if utf8Cont b2 then
          Char.ofNat ((b - 0xC0) * 0x40 + (b2 - 0x80)) :: utf8DecodeReplace rest2
        else repl :: utf8DecodeReplace (b2 :: rest2)
    else if 0xE0 ≤ b ∧ b ≤ 0xEF then
      match rest with
      | [] => [repl]
      | b2 :: rest2 =>
        if utf8Second b b2 then
          match rest2 with
          | [] => [repl]
          | b3 :: rest3 =>
            if utf8Cont b3 then
              Char.ofNat ((b - 0xE0) * 0x1000 + (b2 - 0x80) * 0x40 + (b3 - 0x80)) ::
                utf8DecodeReplace rest3
            else repl :: utf8DecodeReplace (b3 :: rest3)
        else repl :: utf8DecodeReplace (b2 :: rest2)
    else if 0xF0 ≤ b ∧ b ≤ 0xF4 then
      match rest with
      | [] => [repl]
      | b2 :: rest2 =>
        if utf8Second b b2 then
          match rest2 with
          | [] => [repl]
          | b3 :: rest3 =>
            if utf8Cont b3 then
              match rest3 with
              | [] => [repl]
              | b4 :: rest4 =>
                if utf8Cont b4 then
                  Char.ofNat ((b - 0xF0) * 0x40000 + (b2 - 0x80) * 0x1000 +
                      (b3 - 0x80) * 0x40 + (b4 - 0x80)) :: utf8DecodeReplace rest4
                else repl :: utf8DecodeReplace (b4 :: rest4)
            else repl :: utf8DecodeReplace (b3 :: rest3)
        else repl :: utf8DecodeReplace (b2 :: rest2)
    else repl :: utf8DecodeReplace rest

/-- Worker for `unquote`: scans the string, accumulating in `acc` the bytes of
the current maximal run of `%XY` escapes; any other character flushes the run
through the UTF-8 decoder and is copied through.  (CPython decodes each
maximal ASCII chunk's percent-escaped bytes together; since an ASCII byte can
never occur inside a multi-byte UTF-8 sequence, flushing at every literal
character is observably the same.) -/
def unquoteAux : List Char → List Nat → List Char
  | [], acc => utf8DecodeReplace acc
  | c :: h1 :: h2 :: rest2, acc =>
    if c = '%' then
      match hexVal h1, hexVal h2 with
      | some a, some b => unquoteAux rest2 (acc ++ [16 * a + b])
      | _, _ => utf8DecodeReplace acc ++ c :: unquoteAux (h1 :: h2 :: rest2) []
    else utf8DecodeReplace acc ++ c :: unquoteAux (h1 :: h2 :: rest2) []
  | c :: rest, acc =>
    utf8DecodeReplace acc ++ c :: unquoteAux rest []

/-- `urllib.parse.unquote` on code points (default `encoding="utf-8"`,
`errors="replace"`). -/
def unquoteChars (s : List Char) : List Char := unquoteAux s []

/-- `urllib.parse.unquote` on strings. -/
def unquote (s : String) : String := String.mk (unquoteChars s.data)

/-- `str.replace("+", " ")`, applied by `parse_qsl` before unquoting. -/
def plusToSpace (l : List Char) : List Char :=
  l.map fun c => if c = '+' then ' ' else c

/-- `qs.split("&")` (the only separator since Python 3.10): splits on every
ampersand and keeps empty chunks, `"".split("&") == [""]`. -/
def splitAmp : List Char → List (List Char)
  | [] => [[]]
  | c :: rest =>
    if c = '&' then [] :: splitAmp rest
    else
      match splitAmp rest with
      | chunk :: chunks => (c :: chunk) :: chunks
      | [] => [[c]]

/-- `name_value.split("=", 1)`: `Option.none` when the chunk has no equals sign
(`len(nv) != 2`). -/
def splitEq : List Char → Option (List Char × List Char)
  | [] => Option.none
  | c :: rest =>
    if c = '=' then some ([], rest)
    else (splitEq rest).map fun p => (c :: p.1, p.2)

/-- Treatment of a single `name=value` chunk by `parse_qsl` (with the default
`keep_blank_values=False, strict_parsing=False`): empty chunks and chunks
without `=` are dropped, pairs with an empty value are dropped, names and
values are plus- and percent-decoded. -/
def qslChunk (chunk : List Char) : Option (List Char × List Char) :=
  if chunk = [] then Option.none
  else
    match splitEq chunk with
    | Option.none => Option.none
    | some (n, v) =>
      if v = [] then Option.none
      else some (unquoteChars (plusToSpace n), unquoteChars (plusToSpace v))

/-- `urllib.parse.parse_qsl(qs)`: split on ampersands and process each chunk. -/
def parse_qsl (qs : List Char) : List (List Char × List Char) :=
  (splitAmp qs).filterMap qslChunk

/-- One step of `parse_qs`'s dict building: append `v` to the entry of `k`, or
insert a new entry at the end (Python dicts preserve insertion order). -/
def addToDict (d : List (String × List String)) (k : String) (v : String) :
    List (String × List String) :=
  match d with
  | [] => [(k, [v])]
  | (k0, vs) :: rest =>
    if k0 = k then (k0, vs ++ [v]) :: rest else (k0, vs) :: addToDict rest k v

/-- `urllib.parse.parse_qs(qs)` as an insertion-ordered association list. -/
def parse_qs (qs : List Char) : List (String × List String) :=
  (parse_qsl qs).foldl (fun d kv => addToDict d (String.mk kv.1) (String.mk kv.2)) []

/-- Value of one entry of the dictionary returned by
`DownloadParser.parse_query_params`: `v[0] if len(v) == 1 else v`. -/
inductive QVal where
  | one (s : String)
  | many (vs : List String)
  deriving DecidableEq, Repr

end Urllib

/-! ### `sayou.healthcare.health`

Data model (`models.py`), HTML-row parsing (`parsers/medicine.py`), the CSV
writer (`parsers/csv_writer.py`), the HTTP client (`client.py`) and the
pagination loops of `parsers/download.py`.
-/

namespace Health

/-- `sayou.healthcare.health.utils.KOREAN_INITIALS`. -/
def KOREAN_INITIALS : List String :=
  ["ㄱ", "ㄴ", "ㄷ", "ㄹ", "ㅁ", "ㅂ", "ㅅ", "ㅇ", "ㅈ", "ㅊ", "ㅋ", "ㅌ", "ㅍ", "ㅎ"]

/-- `MedicineTableParser.EMPTY_IMAGE_PATH`. -/
def EMPTY_IMAGE_PATH : String := "/images/img_empty3.jpg"

/-- `health.models.Medicine`.  Every field is `Option String`: Python is
unityped, so a field annotated `str` can still be compared against `None`;
`some s` models a Python string and `none` models Python `None`. -/
structure Medicine where
  name : Option String
  code : Option String
  ingredient : Option String
  effect : Option String
  company : Option String
  category : Option String
  form : Option String
  expert : Option String
  insurance : Option String
  bioequiv : Option String
  image : Option String
  deriving DecidableEq, Repr

/-- One `<tr>` of the result table, distilled to exactly the pieces
`MedicineTableParser` extracts from it with XPath and regular expressions:
the stripped text of the `th` cells, the stripped text of the `td` cells,
the successful captures of `show_idfypop('...')` over the image `onclick`
attributes, the successful captures of `drug_detailHref('...')` over the
`td.txtL` `onclick` attributes, and the image `src` attributes.  (The lxml
tree walk and the regex engine are external to the embedding; the lists are
in document order, so "first match" is the head.) -/
structure TableRow where
  thTexts : List String
  tdTexts : List String
  idfyMatches : List String
  hrefMatches : List String
  imgSrcs : List String
  deriving DecidableEq, Repr

/-- `MedicineTableParser._extract_medicine_code`: first `show_idfypop`
capture, else first `drug_detailHref` capture, else `None`. -/
def extract_medicine_code (row : TableRow) : Option String :=
  match row.idfyMatches with
  | c :: _ => some c
  | [] =>
    match row.hrefMatches with
    | c :: _ => some c
    | [] => Option.none

/-- `MedicineTableParser._extract_image_url`: the first image source unless
it is the empty-image placeholder. -/
def extract_image_url (row : TableRow) : Option String :=
  match row.imgSrcs with
  | s :: _ => if s ≠ EMPTY_IMAGE_PATH then some s else Option.none
  | [] => Option.none

/-- `MedicineTableParser._parse_row`: header rows (any `th` text) and rows
without `td` cells yield `None`; otherwise the first data cell is dropped and
the remaining cells are assigned positionally, missing trailing positions
defaulting to `""` for `name` and `None` for the others. -/
def parse_row (row : TableRow) : Option Medicine :=
  if row.thTexts ≠ [] then Option.none
  else if row.tdTexts = [] then Option.none
  else
    let td := row.tdTexts.drop 1
    some {
      name := some ((td.get? 0).getD ""),
      code := extract_medicine_code row,
      ingredient := td.get? 1,
      effect := td.get? 2,
      company := td.get? 3,
      category := td.get? 4,
      form := td.get? 5,
      expert := td.get? 6,
      insurance := td.get? 7,
      bioequiv := td.get? 8,
      image := extract_image_url row }

/-- The nine positionally-assigned fields of `Medicine`, in the cell order of
`_parse_row` (position `k` is filled from data cell `k`). -/
def Medicine.positional_fields (m : Medicine) : List (Option String) :=
  [m.name, m.ingredient, m.effect, m.company, m.category, m.form, m.expert,
   m.insurance, m.bioequiv]

/-- `DownloadParser._fetch_by_initial`, with the per-page HTTP POST and HTML
parse (`_fetch_page`) given as the oracle `pages : page number ↦ parsed
medicines` (pages are numbered from 1 as in the source).  The Python `while
True` loop is modelled with explicit `fuel`; `Option.none` means the fuel ran
out before the loop broke.  The result pairs the collected medicines with
the list of page numbers that were fetched, in order. -/
def fetch_by_initial_aux (pages : Nat → List Medicine) :
    Nat → Nat → Option (List Medicine × List Nat)
  | 0, _ => Option.none
  | fuel + 1, page_num =>
    let page_medicines := pages page_num
    if page_medicines = [] then some ([], [page_num])
    else
      match fetch_by_initial_aux pages fuel (page_num + 1) with
      | Option.none => Option.none
      | some (ms, trace) => some (page_medicines ++ ms, page_num :: trace)

/-- `DownloadParser._fetch_by_initial` starting from page 1. -/
def fetch_by_initial (pages : Nat → List Medicine) (fuel : Nat) :
    Option (List Medicine × List Nat) :=
  fetch_by_initial_aux pages fuel 1

/-- `DownloadParser.fetch_all`, with `_fetch_by_initial` abstracted as the
oracle `byInitial`.  The source iterates over `KOREAN_INITIALS[:1]` and
extends the accumulator per initial; the result pairs the collected
medicines with the list of initials that were processed. -/
def fetch_all (byInitial : String → List Medicine) :
    List Medicine × List String :=
  (((KOREAN_INITIALS.take 1).map byInitial).flatten, KOREAN_INITIALS.take 1)

end Health

namespace Health

/-- `health.models.SearchPayload`, the search form payload (defaults from the
dataclass declaration). -/
structure SearchPayload where
  req_page : Int := 1
  listup : Int := 1000
  search_drugnm_initial : String := ""
  inner_search_word : String := ""
  origin_cnt : String := ""
  inner_search_flag : String := ""
  inner_match_value : String := ""
  input_drug_nm : String := ""
  input_upsoNm : String := ""
  cbx_sunbcnt : String := "0"
  cbx_class : String := "0"
  anchor_dosage_route_hidden : String := ""
  mfds_cd : String := ""
  mfds_cdword : String := ""
  input_hiraingdcd : String := ""
  search_sunb1 : String := ""
  search_sunb2 : String := ""
  search_sunb3 : String := ""
  sunb_equals1 : String := ""
  sunb_equals2 : String := ""
  sunb_equals3 : String := ""
  sunb_where1 : String := "and"
  sunb_where2 : String := "and"
  search_effect : String := ""
  cbx_bohtype : String := ""
  search_bohcode : String := ""
  anchor_form_info_hidden : String := ""
  cbx_narcotic : String := ""
  atccode_val : String := ""
  atccode_name : String := ""
  kpic_atc_nm_opener : String := ""
  kpic_atc_nm : String := ""
  cbx_bio : String := ""
  icode : String := ""
  ori_search_word : String := ""
  search_flag : String := ""
  movefrom : String := "drug"
  viewmode : String := ""
  more : String := ""
  deriving DecidableEq, Repr

/-- `dataclasses.asdict(self).items()` in field-declaration order, with each
value already rendered by the f-string `f"{key}={value}"` of `to_urlencoded`
(so the two integer fields appear in decimal). -/
def SearchPayload.asdict (p : SearchPayload) : List (String × String) :=
  [("req_page", toString p.req_page),
   ("listup", toString p.listup),
   ("search_drugnm_initial", p.search_drugnm_initial),
   ("inner_search_word", p.inner_search_word),
   ("origin_cnt", p.origin_cnt),
   ("inner_search_flag", p.inner_search_flag),
   ("inner_match_value", p.inner_match_value),
   ("input_drug_nm", p.input_drug_nm),
   ("input_upsoNm", p.input_upsoNm),
   ("cbx_sunbcnt", p.cbx_sunbcnt),
   ("cbx_class", p.cbx_class),
   ("anchor_dosage_route_hidden", p.anchor_dosage_route_hidden),
   ("mfds_cd", p.mfds_cd),
   ("mfds_cdword", p.mfds_cdword),
   ("input_hiraingdcd", p.input_hiraingdcd),
   ("search_sunb1", p.search_sunb1),
   ("search_sunb2", p.search_sunb2),
   ("search_sunb3", p.search_sunb3),
   ("sunb_equals1", p.sunb_equals1),
   ("sunb_equals2", p.sunb_equals2),
   ("sunb_equals3", p.sunb_equals3),
   ("sunb_where1", p.sunb_where1),
   ("sunb_where2", p.sunb_where2),
   ("search_effect", p.search_effect),
   ("cbx_bohtype", p.cbx_bohtype),
   ("search_bohcode", p.search_bohcode),
   ("anchor_form_info_hidden", p.anchor_form_info_hidden),
   ("cbx_narcotic", p.cbx_narcotic),
   ("atccode_val", p.atccode_val),
   ("atccode_name", p.atccode_name),
   ("kpic_atc_nm_opener", p.kpic_atc_nm_opener),
   ("kpic_atc_nm", p.kpic_atc_nm),
   ("cbx_bio", p.cbx_bio),
   ("icode", p.icode),
   ("ori_search_word", p.ori_search_word),
   ("search_flag", p.search_flag),
   ("movefrom", p.movefrom),
   ("viewmode", p.viewmode),
   ("more", p.more)]

/-- `"&".join(parts)` on code points. -/
def ampJoin : List (List Char) → List Char
  | [] => []
  | [x] => x
  | x :: xs => x ++ '&' :: ampJoin xs

/-- `SearchPayload.to_urlencoded`: `key=value` parts joined by ampersands;
no percent-encoding is applied. -/
def SearchPayload.to_urlencoded (p : SearchPayload) : String :=
  String.mk (ampJoin (p.asdict.map fun kv => kv.1.data ++ '=' :: kv.2.data))

/-- `DownloadParser.parse_query_params`: strip leading question marks, apply
`parse_qs`, then collapse singleton value lists (`v[0] if len(v) == 1 else
v`). -/
def parse_query_params (query_string : String) : List (String × Urllib.QVal) :=
  (Urllib.parse_qs (query_string.data.dropWhile fun c => c = '?')).map fun kv =>
    match kv.2 with
    | [v] => (kv.1, Urllib.QVal.one v)
    | vs => (kv.1, Urllib.QVal.many vs)

/-! #### `health.client.HealthClient`

The network send is external: the embedding takes the response that the
session returned and models what `_get` / `_post` do with it
(`raise_for_status`, then setting `encoding` and returning it). -/

/-- The fields of a `requests.Response` that `HealthClient` observes. -/
structure Resp where
  status : Nat
  encoding : Option String := Option.none
  deriving DecidableEq, Repr

/-- `requests.HTTPError` as raised by `Response.raise_for_status`. -/
inductive HttpError where
  | client_error (status : Nat)
  | server_error (status : Nat)
  deriving DecidableEq, Repr

/-- `requests.Response.raise_for_status`: an `HTTPError` for `4xx` and `5xx`
status codes, otherwise no effect (this is the whole of the requests-library
logic the client relies on). -/
def raise_for_status (r : Resp) : Except HttpError Unit :=
  if 400 ≤ r.status ∧ r.status < 500 then Except.error (HttpError.client_error r.status)
  else if 500 ≤ r.status ∧ r.status < 600 then Except.error (HttpError.server_error r.status)
  else Except.ok ()

/-- `HealthClient._get` applied to the response the session produced:
`raise_for_status`, set `encoding = "utf-8"`, return the response. -/
def client_get (r : Resp) : Except HttpError Resp :=
  match raise_for_status r with
  | Except.error e => Except.error e
  | Except.ok _ => Except.ok { r with encoding := some "utf-8" }

/-- `HealthClient._post` applied to the response the session produced: the
same post-processing as `_get`. -/
def client_post (r : Resp) : Except HttpError Resp :=
  match raise_for_status r with
  | Except.error e => Except.error e
  | Except.ok _ => Except.ok { r with encoding := some "utf-8" }

/-! #### `health.parsers.csv_writer.MedicineCsvWriter`

A written CSV file is modelled as its list of rows, each row a list of cell
strings (the `csv` module writes `None` as an empty field and `str`s the
rest). -/

/-- The data rows written by `MedicineCsvWriter.save`'s loop
(`enumerate(medicines, start=1)`): row `[index, medicine.name]`. -/
def save_rows_from (start : Nat) : List Medicine → List (List String)
  | [] => []
  | m :: ms => [toString start, (m.name).getD ""] :: save_rows_from (start + 1) ms

/-- `MedicineCsvWriter.save`: header `["id", "name"]`, then one row per
medicine with its 1-based index. -/
def save (medicines : List Medicine) : List (List String) :=
  ["id", "name"] :: save_rows_from 1 medicines

/-- `Medicine.to_dict` (`dataclasses.asdict`) in field-declaration order. -/
def Medicine.to_dict (m : Medicine) : List (String × Option String) :=
  [("name", m.name), ("code", m.code), ("ingredient", m.ingredient),
   ("effect", m.effect), ("company", m.company), ("category", m.category),
   ("form", m.form), ("expert", m.expert), ("insurance", m.insurance),
   ("bioequiv", m.bioequiv), ("image", m.image)]

/-- The data rows written by `MedicineCsvWriter.save_full`'s loop:
`{"id": index, **medicine.to_dict()}` laid out in `["id"] + fieldnames`
order by `csv.DictWriter` (which writes `None` as an empty field). -/
def save_full_rows_from (start : Nat) : List Medicine → List (List String)
  | [] => []
  | m :: ms =>
    (toString start :: m.to_dict.map fun kv => kv.2.getD "") ::
      save_full_rows_from (start + 1) ms

/-- `MedicineCsvWriter.save_full`: with no medicines the method returns before
opening the file (`Option.none` = no file written); otherwise the header is
`"id"` followed by the keys of the first medicine's `to_dict`, then one
full-field row per medicine with its 1-based index. -/
def save_full (medicines : List Medicine) : Option (List (List String)) :=
  match medicines with
  | [] => Option.none
  | m :: _ =>
    some (("id" :: m.to_dict.map Prod.fst) :: save_full_rows_from 1 medicines)

end Health

/-! ### Shared Python-semantics helpers -/

/-- `needle` starts the list `hay` (character-wise). -/
def startsWithChars : List Char → List Char → Bool
  | [], _ => true
  | _ :: _, [] => false
  | a :: as, b :: bs => a == b && startsWithChars as bs

/-- `needle in hay` for lists of characters. -/
def hasInfixChars (needle : List Char) : List Char → Bool
  | [] => needle.isEmpty
  | c :: rest => startsWithChars needle (c :: rest) || hasInfixChars needle rest

/-- Python `needle in hay` on strings. -/
def strContains (hay needle : String) : Bool := hasInfixChars needle.data hay.data

/-- Python `hay.endswith(suffix)`. -/
def strEndsWith (hay suffix : String) : Bool :=
  startsWithChars suffix.data.reverse hay.data.reverse

/-- `dict(zip(keys, row))` as the zipped pair list (truncates at the shorter
input). -/
def dictZip {α : Type} : List String → List α → List (String × α)
  | k :: ks, v :: vs => (k, v) :: dictZip ks vs
  | _, _ => []

/-- Lookup in a pair list with the override semantics of Python `dict`
construction: a later duplicate key wins. -/
def dget {α : Type} : List (String × α) → String → Option α
  | [], _ => Option.none
  | (k0, v) :: rest, k =>
    match dget rest k with
    | some r => some r
    | Option.none => if k0 = k then some v else Option.none

/-- `data.get(k)` for `data = dict(zip(keys, row))`. -/
def pyDictGet (keys : List String) (row : List PyVal) (k : String) : Option PyVal :=
  dget (dictZip keys row) k

/-- Value of a non-empty all-digit character list. -/
def digitsVal (l : List Char) : Option Nat :=
  if l ≠ [] ∧ l.all Char.isDigit then
    some (l.foldl (fun a c => a * 10 + (c.toNat - '0'.toNat)) 0)
  else Option.none

/-- `s.strip()` at the code-point level (ASCII whitespace). -/
def pyStrip (s : String) : List Char :=
  ((s.data.dropWhile Char.isWhitespace).reverse.dropWhile Char.isWhitespace).reverse

/-- Python `int(s)` on a plain decimal string: surrounding whitespace is
stripped, an optional sign is allowed, and the digits are read in base 10
(`Option.none` models the `ValueError` on anything else). -/
def pyStrToInt (s : String) : Option Int :=
  match pyStrip s with
  | '+' :: rest => (digitsVal rest).map Int.ofNat
  | '-' :: rest => (digitsVal rest).map fun n => -(n : Int)
  | rest => (digitsVal rest).map Int.ofNat

/-! ### `sayou.healthcare.nedrug`

Data model (`models.py`), column constants (`utils.py`) and the download
parser (`parsers/download.py`).
-/

namespace Nedrug

/-- The keys of `nedrug.utils.GEMINI_COLUMNS`, in declaration order (the
values are the Korean spreadsheet headers and are never consulted by
`from_tuple`, which only uses `columns.keys()`). -/
def GEMINI_KEYS : List String :=
  ["item_code", "product_name", "product_name_eng", "company_name",
   "company_name_eng", "approval_date", "item_category", "approval_number",
   "cancel_status", "cancel_date", "main_ingredient", "additives",
   "item_classification", "prescription_type", "finished_or_raw",
   "approval_type", "manufacture_or_import", "narcotic_classification",
   "shape", "color", "formulation", "major_axis", "minor_axis",
   "new_drug_status", "standard_code_name", "atc_code", "bundled_drug_info",
   "e_drug_info", "import_country", "main_ingredient_eng"]

/-- `nedrug.models.FileType`. -/
inductive FileType where
  | excel | xls | xlsx | csv | unknown
  deriving DecidableEq, Repr

/-- `nedrug.models.Medicine`.  Fields are `PyVal` because `from_tuple` copies
spreadsheet cells through unchanged: a field annotated `Optional[str]` holds
whatever the cell held, or `None` when the column is missing. -/
structure Medicine where
  id : Int
  item_seq : PyVal
  product_name : PyVal
  product_name_eng : PyVal
  company_name : PyVal
  company_name_eng : PyVal
  permit_date : PyVal
  cancel_date : PyVal
  cancel_name : PyVal
  etc_otc_name : PyVal
  chart : PyVal
  material_name : PyVal
  storage_method : PyVal
  valid_term : PyVal
  pack_unit : PyVal
  reexam_target : PyVal
  reexam_date : PyVal
  induty_type : PyVal
  standard_code : PyVal
  atc_code : PyVal
  narcotic_kind : PyVal
  is_new_drug : PyVal
  insert_file : PyVal
  change_date : PyVal
  deriving DecidableEq, Repr

/-- `nedrug.models.Medicine.from_tuple`: `data = dict(zip(columns.keys(),
row))`, then every field is `data.get(name)` (with default `""` for
`item_seq` and `product_name`). -/
def Medicine.from_tuple (row : List PyVal) (columns : List String) (index : Int) :
    Medicine :=
  let get := fun k => pyDictGet columns row k
  { id := index,
    item_seq := (get "item_seq").getD (PyVal.str ""),
    product_name := (get "product_name").getD (PyVal.str ""),
    product_name_eng := (get "product_name_eng").getD PyVal.none,
    company_name := (get "company_name").getD PyVal.none,
    company_name_eng := (get "company_name_eng").getD PyVal.none,
    permit_date := (get "permit_date").getD PyVal.none,
    cancel_date := (get "cancel_date").getD PyVal.none,
    cancel_name := (get "cancel_name").getD PyVal.none,
    etc_otc_name := (get "etc_otc_name").getD PyVal.none,
    chart := (get "chart").getD PyVal.none,
    material_name := (get "material_name").getD PyVal.none,
    storage_method := (get "storage_method").getD PyVal.none,
    valid_term := (get "valid_term").getD PyVal.none,
    pack_unit := (get "pack_unit").getD PyVal.none,
    reexam_target := (get "reexam_target").getD PyVal.none,
    reexam_date := (get "reexam_date").getD PyVal.none,
    induty_type := (get "induty_type").getD PyVal.none,
    standard_code := (get "standard_code").getD PyVal.none,
    atc_code := (get "atc_code").getD PyVal.none,
    narcotic_kind := (get "narcotic_kind").getD PyVal.none,
    is_new_drug := (get "is_new_drug").getD PyVal.none,
    insert_file := (get "insert_file").getD PyVal.none,
    change_date := (get "change_date").getD PyVal.none }

/-- `nedrug.models.DownloadFile` (the `downloaded_at` timestamp is outside
the embedding). -/
structure DownloadFile where
  filename : String
  content : List Nat
  file_type : FileType := FileType.unknown
  deriving DecidableEq, Repr

/-- `nedrug.models.DownloadFile.detect_file_type`. -/
def DownloadFile.detect_file_type (filename : String) : FileType :=
  let lower_name := filename.toLower
  if strEndsWith lower_name ".xlsx" then FileType.xlsx
  else if strEndsWith lower_name ".xls" then FileType.xls
  else if strEndsWith lower_name ".csv" then FileType.csv
  else FileType.unknown

/-- `nedrug.models.ExcelData` (the `parsed_at` timestamp is outside the
embedding). -/
structure ExcelData where
  filename : String
  rows : List (List PyVal)
  sheet_name : Option String := Option.none
  deriving DecidableEq, Repr

/-- `nedrug.models.PageResult`. -/
structure PageResult where
  page_num : Nat
  filename : String
  download_file : Option DownloadFile
  medicines : List Medicine
  has_more : Bool := true
  deriving DecidableEq, Repr

/-- `PageResult.is_empty`. -/
def PageResult.is_empty (r : PageResult) : Bool := r.medicines.length == 0

/-- `nedrug.models.DownloadResult` (the `downloaded_at` timestamp is outside
the embedding). -/
structure DownloadResult where
  medicines : List Medicine
  page_results : List PageResult := []
  total_pages : Nat := 0
  deriving DecidableEq, Repr

end Nedrug

namespace Nedrug

/-- `DownloadParser.HEADER_KEYWORD`. -/
def HEADER_KEYWORD : String := "품목기준코드"

/-- `DownloadParser._is_header_row`: some truthy string cell contains the
header keyword. -/
def is_header_row (row : List PyVal) : Bool :=
  row.any fun item =>
    item.truthy &&
      (match item with
       | PyVal.str s => strContains s HEADER_KEYWORD
       | _ => false)

/-- `DownloadParser._convert_to_medicines`: enumerate the rows, skip header
rows, build a `Medicine` per remaining row with id `base_index + idx` (the
enumeration index, so skipped header rows leave gaps). -/
def convert_to_medicines (excel_data : ExcelData) (page_num page_size : Nat) :
    List Medicine :=
  excel_data.rows.enum.filterMap fun iv =>
    if is_header_row iv.2 then Option.none
    else some (Medicine.from_tuple iv.2 GEMINI_KEYS (page_num * page_size + iv.1))

/-- `DownloadParser._generate_filename`. -/
def generate_filename (original_filename : String) (page_num row_count page_size : Nat) :
    String :=
  let file_suffix :=
    if row_count ≥ page_size then (page_num + 1) * page_size
    else page_num * page_size + row_count
  if !original_filename.isEmpty && strContains original_filename.toLower ".xls" then
    original_filename.replace ".xls" ("_" ++ toString file_suffix ++ ".xls")
  else "medicine_data_" ++ toString file_suffix ++ ".xls"

/-- The part of a `requests.Response` that `_download_page` observes:
`filename_extract` is the result of `get_filename(response.headers)`
(`Content-Disposition` regex match, `Option.none` when absent) and `content`
the body bytes. -/
structure HttpResp where
  filename_extract : Option String
  content : List Nat := []
  deriving DecidableEq, Repr

/-- Oracle for the external effects inside one `_download_page` call: the
outcome of the HTTP POST, of `ExcelParser.parse_excel_stream`, and of the
local file write (`Except.error` models a raised exception, carrying its
message). -/
structure PageEnv where
  post : Except String HttpResp
  parse_excel : Except String ExcelData
  save_file : Except String Unit
  deriving Repr

/-- `DownloadParser._download_page`: the whole body runs inside
`try ... except Exception`, so the embedding first evaluates the body in the
`Except` monad and then maps any error to the empty-result sentinel
`PageResult(page_num, "", None, [], has_more=False)`.  A response without an
extractable filename (the falsy check `if not filename`) and a spreadsheet
with at most one row also return sentinel results from inside the body. -/
def download_page (page_num page_size : Nat) (env : PageEnv) : PageResult :=
  let body : Except String PageResult := do
    let response ← env.post
    let filename := response.filename_extract
    if (filename.getD "").isEmpty then
      return { page_num := page_num, filename := "", download_file := Option.none,
               medicines := [], has_more := false }
    let decoded_filename := Urllib.unquote (filename.getD "")
    let excel_data ← env.parse_excel
    if excel_data.rows.length ≤ 1 then
      return { page_num := page_num, filename := decoded_filename,
               download_file := Option.none, medicines := [], has_more := false }
    let medicines := convert_to_medicines excel_data page_num page_size
    let final_filename := generate_filename decoded_filename page_num medicines.length page_size
    let _ ← env.save_file
    let download_file : DownloadFile :=
      { filename := final_filename, content := response.content,
        file_type := DownloadFile.detect_file_type final_filename }
    let has_more := decide (excel_data.rows.length ≥ page_size + 1)
    return { page_num := page_num, filename := final_filename,
             download_file := some download_file, medicines := medicines,
             has_more := has_more }
  match body with
  | Except.ok r => r
  | Except.error _ =>
    { page_num := page_num, filename := "", download_file := Option.none,
      medicines := [], has_more := false }

/-- `DownloadParser.fetch`, with `_download_page` given as the oracle
`pages : page number ↦ PageResult` (pages are numbered from 0 as in the
source).  The `while True` loop is modelled with explicit `fuel`
(`Option.none` = fuel exhausted); on an empty page result the loop breaks
without accumulating, on a non-empty one it accumulates and continues only
while `has_more`.  The result pairs the `DownloadResult` with the list of
page numbers that were fetched, in order. -/
def fetch_aux (pages : Nat → PageResult) :
    Nat → Nat → List Medicine → List PageResult → Option (DownloadResult × List Nat)
  | 0, _, _, _ => Option.none
  | fuel + 1, page_num, all_medicines, page_results =>
    let page_result := pages page_num
    if page_result.is_empty then
      some ({ medicines := all_medicines, page_results := page_results,
              total_pages := page_num + 1 }, [page_num])
    else
      let all_medicines := all_medicines ++ page_result.medicines
      let page_results := page_results ++ [page_result]
      if !page_result.has_more then
        some ({ medicines := all_medicines, page_results := page_results,
                total_pages := page_num + 1 }, [page_num])
      else
        match fetch_aux pages fuel (page_num + 1) all_medicines page_results with
        | Option.none => Option.none
        | some (res, trace) => some (res, page_num :: trace)

/-- `DownloadParser.fetch` starting from page 0 with empty accumulators. -/
def fetch (pages : Nat → PageResult) (fuel : Nat) :
    Option (DownloadResult × List Nat) :=
  fetch_aux pages fuel 0 [] []

/-- `DownloadParser.save_to_csv`: header `["id", "name"]`, then one row
`[medicine.id, medicine.product_name]` per medicine (ids as stored). -/
def save_to_csv (medicines : List Medicine) : List (List String) :=
  ["id", "name"] :: medicines.map fun m => [toString m.id, m.product_name.cell]

end Nedrug

/-! ### `sayou.healthcare.hira`

Data model (`models.py`), column constants (`utils.py`), the bulletin-board
download parser (`parsers/download.py`) and the open-data parser
(`parsers/opendata.py`).
-/

namespace Hira

/-- The keys of `hira.utils.HOSPITAL_COLUMNS`, in declaration order. -/
def HOSPITAL_KEYS : List String :=
  ["encrypted_medical_institution_code", "medical_institution_name",
   "type_code", "type_code_name", "city_province_code",
   "city_province_code_name", "district_code", "district_code_name",
   "town_village", "postal_code", "address", "phone_number",
   "hospital_website", "opening_date", "total_doctors",
   "medical_general_practitioner_count", "medical_intern_count",
   "medical_resident_count", "medical_specialist_count",
   "dental_general_practitioner_count", "dental_intern_count",
   "dental_resident_count", "dental_specialist_count",
   "korean_medicine_general_practitioner_count",
   "korean_medicine_intern_count", "korean_medicine_resident_count",
   "korean_medicine_specialist_count", "midwife_count",
   "coordinate_x", "coordinate_y"]

/-- `hira.models.FileType`. -/
inductive FileType where
  | excel | zip | csv | unknown
  deriving DecidableEq, Repr

/-- `hira.models.DownloadFile` (timestamp outside the embedding). -/
structure DownloadFile where
  filename : String
  content : List Nat
  file_type : FileType := FileType.unknown
  deriving DecidableEq, Repr

/-- `Hospital._parse_int`: `None` stays `None`, `int(value)` with
`ValueError`/`TypeError` mapped to `None`. -/
def parse_int : PyVal → PyVal
  | PyVal.none => PyVal.none
  | PyVal.int n => PyVal.int n
  | PyVal.str s =>
    match pyStrToInt s with
    | some n => PyVal.int n
    | Option.none => PyVal.none

/-- `hira.models.Hospital`.  As with the nedrug `Medicine`, fields hold the
Python value (`PyVal`): `from_tuple` copies cells through unchanged except
for the two `_parse_int` conversions. -/
structure Hospital where
  id : Int
  name : PyVal
  address : PyVal
  encrypted_institution_code : PyVal
  institution_type : PyVal
  sido : PyVal
  sigungu : PyVal
  zip_code : PyVal
  phone : PyVal
  website : PyVal
  opening_date : PyVal
  total_beds : PyVal
  total_doctors : PyVal
  deriving DecidableEq, Repr

/-- `hira.models.Hospital.from_tuple`: `data = dict(zip(columns.keys(),
row))`, then each field is a `data.get(...)` under the lookup name written in
the source (several of those names do not occur among the `HOSPITAL_COLUMNS`
keys, so those fields always take their defaults). -/
def Hospital.from_tuple (row : List PyVal) (columns : List String) (index : Int) :
    Hospital :=
  let get := fun k => pyDictGet columns row k
  { id := index,
    name := (get "medical_institution_name").getD (PyVal.str ""),
    address := (get "address").getD (PyVal.str ""),
    encrypted_institution_code := (get "encrypted_institution_code").getD PyVal.none,
    institution_type := (get "institution_type").getD PyVal.none,
    sido := (get "sido").getD PyVal.none,
    sigungu := (get "sigungu").getD PyVal.none,
    zip_code := (get "zip_code").getD PyVal.none,
    phone := (get "phone").getD PyVal.none,
    website := (get "website").getD PyVal.none,
    opening_date := (get "opening_date").getD PyVal.none,
    total_beds := parse_int ((get "total_beds").getD PyVal.none),
    total_doctors := parse_int ((get "total_doctors").getD PyVal.none) }

/-- `hira.models.BoardItem`. -/
structure BoardItem where
  title : String
  brd_blt_no : String
  date : String
  file_type : Option String := Option.none
  author : Option String := Option.none
  views : Option Int := Option.none
  deriving DecidableEq, Repr

/-- `hira.models.ExcelData` (timestamp outside the embedding). -/
structure ExcelData where
  filename : String
  rows : List (List PyVal)
  sheet_name : Option String := Option.none
  deriving DecidableEq, Repr

/-- `hira.models.DownloadResult`. -/
structure DownloadResult where
  filename : String
  excel_data : ExcelData
  board_items : List BoardItem := []
  deriving DecidableEq, Repr

/-- Python `max(board_items, key=lambda x: x.date)` over `h :: t`: scan left
to right, replacing the current best only on a strictly greater date, so ties
keep the earliest item. -/
def maxByDate (h : BoardItem) (t : List BoardItem) : BoardItem :=
  t.foldl (fun best x => if best.date < x.date then x else best) h

/-- `DownloadResult.latest_item`: `None` on an empty board, otherwise the
maximum-date item. -/
def DownloadResult.latest_item (r : DownloadResult) : Option BoardItem :=
  match r.board_items with
  | [] => Option.none
  | h :: t => some (maxByDate h t)

/-- Oracle for the external effects of the bulletin-board
`DownloadParser.fetch`: the board items parsed from the listing page
(`_parse_board_page`), the per-bulletin file download
(`_download_file`, `Option.none` = the caught exception path), and the
spreadsheet parse of the downloaded content. -/
structure FetchEnv where
  board_items : List BoardItem
  download : String → Option DownloadFile
  excel_result : ExcelData

/-- `hira.parsers.download.DownloadParser.fetch`: pick the maximum-date board
item, download its bulletin number, parse the spreadsheet, and return the
result carrying the full board list.  The second component traces which
bulletin number was downloaded (`Option.none` = no download was attempted). -/
def board_fetch (env : FetchEnv) : Option DownloadResult × Option String :=
  match env.board_items with
  | [] => (Option.none, Option.none)
  | h :: t =>
    let latest_item := maxByDate h t
    match env.download latest_item.brd_blt_no with
    | Option.none => (Option.none, some latest_item.brd_blt_no)
    | some download_file =>
      (some { filename := download_file.filename, excel_data := env.excel_result,
              board_items := env.board_items }, some latest_item.brd_blt_no)

/-- `hira.models.OpenDataResult`. -/
structure OpenDataResult where
  download_file : DownloadFile
  hospital_data : Option ExcelData := Option.none
  pharmacy_data : Option ExcelData := Option.none
  extracted_files : List String := []
  deriving DecidableEq, Repr

/-- Oracle for the external effects of `OpenDataParser`: the `fn_fileDown`
codes scraped from the portal page (`Except.error` = exception during GET or
parse), the download POST response (its `get_filename` extraction and body),
the decoded ZIP name list, and the spreadsheet parses of the two service
files. -/
structure OpenEnv where
  start_page : Except String (List String)
  download : Except String (Option String × List Nat)
  extract : List String
  parse_hospital_file : Option ExcelData
  parse_pharmacy_file : Option ExcelData
  deriving Repr

/-- Python `sorted(l, reverse=True)[0]` for a non-empty string list: its
maximum (ties between equal strings are the same value). -/
def maxString (h : String) (t : List String) : String :=
  t.foldl (fun best x => if best < x then x else best) h

/-- `OpenDataParser._get_latest_download_code`: `None` on any exception or
when no `fn_fileDown` capture was found, otherwise the lexicographically
largest code. -/
def get_latest_download_code (env : OpenEnv) : Option String :=
  match env.start_page with
  | Except.error _ => Option.none
  | Except.ok onclicks =>
    match onclicks with
    | [] => Option.none
    | h :: t => some (maxString h t)

/-- `OpenDataParser._download_file`: `None` on any exception — a raised POST
is one, and so is `unquote(None)` when no filename could be extracted (a
`TypeError` inside the `try`). -/
def download_file_fn (env : OpenEnv) : Option DownloadFile :=
  match env.download with
  | Except.error _ => Option.none
  | Except.ok (filename_extract, content) =>
    match filename_extract with
    | Option.none => Option.none
    | some filename =>
      some { filename := Urllib.unquote filename, content := content,
             file_type := FileType.zip }

/-- `OpenDataParser._download_latest_file`: `None` when no code was found,
otherwise `_download_file`. -/
def download_latest_file (env : OpenEnv) : Option DownloadFile :=
  match get_latest_download_code env with
  | Option.none => Option.none
  | some _ => download_file_fn env

/-- `OpenDataParser._parse_service_file`: `None` when no extracted file
contains the given name fragment, otherwise the spreadsheet parse of the
first match (the parse itself is the oracle `parsed`). -/
def parse_service_file (extracted_files : List String) (file_frag : String)
    (parsed : Option ExcelData) : Option ExcelData :=
  match extracted_files.filter (fun f => strContains f file_frag) with
  | [] => Option.none
  | _ :: _ => parsed

/-- `OpenDataParser.fetch`: `None` as soon as no file could be downloaded;
otherwise unzip and parse the two service files.  The second component
traces the parsing steps that were performed (empty = the method returned
before any extraction or parsing).  The `is_cleanup_files` file removal is
outside the embedding. -/
def opendata_fetch (env : OpenEnv) : Option OpenDataResult × List String :=
  match download_latest_file env with
  | Option.none => (Option.none, [])
  | some download_file =>
    let extracted_files := env.extract
    let hospital_data :=
      parse_service_file extracted_files "1.병원정보서비스" env.parse_hospital_file
    let pharmacy_data :=
      parse_service_file extracted_files "2.약국정보서비스" env.parse_pharmacy_file
    (some { download_file := download_file, hospital_data := hospital_data,
            pharmacy_data := pharmacy_data, extracted_files := extracted_files },
     ["extract_zip", "parse_hospital_service_file", "parse_pharmacy_service_file"])

end Hira

/-! ### Lemmas: query-string round trip -/

namespace Urllib

/-- A string free of the four characters that `to_urlencoded` writes verbatim
but `parse_qsl` interprets: the separators `&` and `=`, percent escapes and
plus signs. -/
def qsClean (s : String) : Bool :=
  s.data.all fun c => decide (c ≠ '&' ∧ c ≠ '=' ∧ c ≠ '%' ∧ c ≠ '+')

theorem qsClean_spec {s : String} (h : qsClean s = true) :
    ∀ c ∈ s.data, c ≠ '&' ∧ c ≠ '=' ∧ c ≠ '%' ∧ c ≠ '+' := by
  intro c hc
  exact of_decide_eq_true ((List.all_eq_true.mp h) c hc)

theorem unquoteAux_cons_of_ne (c : Char) (rest : List Char) (hc : c ≠ '%') :
    unquoteAux (c :: rest) [] = c :: unquoteAux rest [] := by
  match rest with
  | [] => simp [unquoteAux, hc, utf8DecodeReplace]
  | [x] => simp [unquoteAux, hc, utf8DecodeReplace]
  | h1 :: h2 :: r2 => simp [unquoteAux, hc, utf8DecodeReplace]

theorem unquoteChars_of_no_pct : ∀ {l : List Char}, (∀ c ∈ l, c ≠ '%') →
    unquoteChars l = l := by
  intro l
  induction l with
  | nil => intro _; rfl
  | cons c rest ih =>
    intro h
    have hc : c ≠ '%' := h c (List.mem_cons_self _ _)
    have hrest : ∀ x ∈ rest, x ≠ '%' := fun x hx => h x (List.mem_cons_of_mem _ hx)
    show unquoteAux (c :: rest) [] = c :: rest
    rw [unquoteAux_cons_of_ne c rest hc]
    exact congrArg (c :: ·) (ih hrest)

theorem plusToSpace_of_no_plus : ∀ {l : List Char}, (∀ c ∈ l, c ≠ '+') →
    plusToSpace l = l := by
  intro l
  induction l with
  | nil => intro _; rfl
  | cons c rest ih =>
    intro h
    have hc : c ≠ '+' := h c (List.mem_cons_self _ _)
    have hrest : ∀ x ∈ rest, x ≠ '+' := fun x hx => h x (List.mem_cons_of_mem _ hx)
    simpa [plusToSpace, hc] using ih hrest

theorem splitAmp_of_no_amp : ∀ {l : List Char}, (∀ c ∈ l, c ≠ '&') →
    splitAmp l = [l] := by
  intro l
  induction l with
  | nil => intro _; rfl
  | cons c rest ih =>
    intro h
    have hc : c ≠ '&' := h c (List.mem_cons_self _ _)
    have hrest : ∀ x ∈ rest, x ≠ '&' := fun x hx => h x (List.mem_cons_of_mem _ hx)
    simp [splitAmp, hc, ih hrest]

theorem splitAmp_append (ys : List Char) : ∀ {xs : List Char},
    (∀ c ∈ xs, c ≠ '&') → splitAmp (xs ++ '&' :: ys) = xs :: splitAmp ys := by
  intro xs
  induction xs with
  | nil => intro _; simp [splitAmp]
  | cons c rest ih =>
    intro h
    have hc : c ≠ '&' := h c (List.mem_cons_self _ _)
    have hrest : ∀ x ∈ rest, x ≠ '&' := fun x hx => h x (List.mem_cons_of_mem _ hx)
    simp [splitAmp, hc, ih hrest]

theorem splitEq_append (v : List Char) : ∀ {k : List Char},
    (∀ c ∈ k, c ≠ '=') → splitEq (k ++ '=' :: v) = some (k, v) := by
  intro k
  induction k with
  | nil => intro _; simp [splitEq]
  | cons c rest ih =>
    intro h
    have hc : c ≠ '=' := h c (List.mem_cons_self _ _)
    have hrest : ∀ x ∈ rest, x ≠ '=' := fun x hx => h x (List.mem_cons_of_mem _ hx)
    simp [splitEq, hc, ih hrest]

theorem string_eq_empty_iff_data {s : String} : s = "" ↔ s.data = [] := by
  constructor
  · intro h; rw [h]
  · intro h
    cases s with
    | mk d =>
      have hd : d = [] := h
      rw [hd]

theorem qslChunk_render {k v : String} (hk : qsClean k = true) (hv : qsClean v = true) :
    qslChunk (k.data ++ '=' :: v.data) =
      if v = "" then Option.none else some (k.data, v.data) := by
  have hkc := qsClean_spec hk
  have hvc := qsClean_spec hv
  have hne : k.data ++ '=' :: v.data ≠ [] := by simp
  rw [qslChunk, if_neg hne, splitEq_append _ (fun c hc => (hkc c hc).2.1)]
  show (if v.data = [] then Option.none
        else some (unquoteChars (plusToSpace k.data), unquoteChars (plusToSpace v.data))) = _
  by_cases hv0 : v = ""
  · rw [if_pos (string_eq_empty_iff_data.mp hv0), if_pos hv0]
  · rw [if_neg (fun h => hv0 (string_eq_empty_iff_data.mpr h)), if_neg hv0]
    rw [plusToSpace_of_no_plus (fun c hc => (hkc c hc).2.2.2),
        plusToSpace_of_no_plus (fun c hc => (hvc c hc).2.2.2),
        unquoteChars_of_no_pct (fun c hc => (hkc c hc).2.2.1),
        unquoteChars_of_no_pct (fun c hc => (hvc c hc).2.2.1)]

/-- No character of a rendered clean `key=value` part is an ampersand. -/
theorem render_no_amp {k v : String} (hk : qsClean k = true) (hv : qsClean v = true) :
    ∀ c ∈ k.data ++ '=' :: v.data, c ≠ '&' := by
  intro c hc
  rcases List.mem_append.mp hc with h | h
  · exact (qsClean_spec hk c h).1
  · rcases List.mem_cons.mp h with h | h
    · rw [h]; decide
    · exact (qsClean_spec hv c h).1

theorem parse_qsl_ampJoin : ∀ (l : List (String × String)),
    (∀ kv ∈ l, qsClean kv.1 = true ∧ qsClean kv.2 = true) →
    parse_qsl (Health.ampJoin (l.map fun kv => kv.1.data ++ '=' :: kv.2.data)) =
      (l.filter fun kv => kv.2 != "").map fun kv => (kv.1.data, kv.2.data) := by
  intro l
  induction l with
  | nil => intro _; rfl
  | cons kv rest ih =>
    intro h
    have hkv := h kv (List.mem_cons_self _ _)
    have hrest : ∀ x ∈ rest, qsClean x.1 = true ∧ qsClean x.2 = true :=
      fun x hx => h x (List.mem_cons_of_mem _ hx)
    cases rest with
    | nil =>
      show parse_qsl (Health.ampJoin [kv.1.data ++ '=' :: kv.2.data]) = _
      rw [show Health.ampJoin [kv.1.data ++ '=' :: kv.2.data] =
            kv.1.data ++ '=' :: kv.2.data from rfl]
      rw [parse_qsl, splitAmp_of_no_amp (render_no_amp hkv.1 hkv.2)]
      rw [List.filterMap_cons, qslChunk_render hkv.1 hkv.2]
      by_cases hv0 : kv.2 = "" <;>
        simp [hv0, List.filter_cons]
    | cons kv2 rest2 =>
      have hjoin : Health.ampJoin ((kv :: kv2 :: rest2).map fun x => x.1.data ++ '=' :: x.2.data) =
          (kv.1.data ++ '=' :: kv.2.data) ++ '&' ::
            Health.ampJoin ((kv2 :: rest2).map fun x => x.1.data ++ '=' :: x.2.data) := by
        simp [Health.ampJoin]
      rw [hjoin, parse_qsl, splitAmp_append _ (render_no_amp hkv.1 hkv.2),
          List.filterMap_cons, qslChunk_render hkv.1 hkv.2]
      have ih2 := ih hrest
      rw [parse_qsl] at ih2
      by_cases hv0 : kv.2 = "" <;>
        simpa [hv0, List.filter_cons] using ih2

theorem addToDict_append_of_not_mem (k : String) (v : String) :
    ∀ (d : List (String × List String)), (∀ e ∈ d, e.1 ≠ k) →
    addToDict d k v = d ++ [(k, [v])] := by
  intro d
  induction d with
  | nil => intro _; rfl
  | cons e rest ih =>
    intro h
    have he : e.1 ≠ k := h e (List.mem_cons_self _ _)
    have hrest : ∀ x ∈ rest, x.1 ≠ k := fun x hx => h x (List.mem_cons_of_mem _ hx)
    cases e with
    | mk k0 vs => simp [addToDict, he, ih hrest]

theorem foldl_addToDict_of_nodup : ∀ (ps : List (String × String))
    (d : List (String × List String)),
    (ps.map Prod.fst).Nodup → (∀ p ∈ ps, ∀ e ∈ d, e.1 ≠ p.1) →
    ps.foldl (fun acc kv => addToDict acc kv.1 kv.2) d =
      d ++ ps.map fun kv => (kv.1, [kv.2]) := by
  intro ps
  induction ps with
  | nil => intro d _ _; simp
  | cons p rest ih =>
    intro d hnd hdis
    have hstep : addToDict d p.1 p.2 = d ++ [(p.1, [p.2])] :=
      addToDict_append_of_not_mem _ _ d (fun e he => hdis p (List.mem_cons_self _ _) e he)
    rw [List.map_cons] at hnd
    have hnd2 : (rest.map Prod.fst).Nodup := (List.nodup_cons.mp hnd).2
    have hnotin : p.1 ∉ rest.map Prod.fst := (List.nodup_cons.mp hnd).1
    have hdis2 : ∀ q ∈ rest, ∀ e ∈ d ++ [(p.1, [p.2])], e.1 ≠ q.1 := by
      intro q hq e he
      rcases List.mem_append.mp he with he | he
      · exact hdis q (List.mem_cons_of_mem _ hq) e he
      · rcases List.mem_singleton.mp he with rfl
        intro hcontra
        apply hnotin
        have hc : p.1 = q.1 := hcontra
        rw [hc]
        exact List.mem_map_of_mem Prod.fst hq
    calc (p :: rest).foldl (fun acc kv => addToDict acc kv.1 kv.2) d
        = rest.foldl (fun acc kv => addToDict acc kv.1 kv.2) (d ++ [(p.1, [p.2])]) := by
          rw [List.foldl_cons, hstep]
      _ = (d ++ [(p.1, [p.2])]) ++ rest.map fun kv => (kv.1, [kv.2]) := ih _ hnd2 hdis2
      _ = d ++ (p :: rest).map fun kv => (kv.1, [kv.2]) := by simp

theorem string_mk_data (s : String) : String.mk s.data = s := rfl

end Urllib

theorem parse_qs_ampJoin (l : List (String × String))
    (h : ∀ kv ∈ l, Urllib.qsClean kv.1 = true ∧ Urllib.qsClean kv.2 = true)
    (hnd : (l.map Prod.fst).Nodup) :
    Urllib.parse_qs (Health.ampJoin (l.map fun kv => kv.1.data ++ '=' :: kv.2.data)) =
      (l.filter fun kv => kv.2 != "").map fun kv => (kv.1, [kv.2]) := by
  rw [Urllib.parse_qs, Urllib.parse_qsl_ampJoin l h, List.foldl_map]
  have hnd2 : ((l.filter fun kv => kv.2 != "").map Prod.fst).Nodup :=
    List.Nodup.sublist (List.Sublist.map _ (List.filter_sublist l)) hnd
  have hdisj : ∀ q ∈ (l.filter fun kv => kv.2 != ""),
      ∀ e ∈ ([] : List (String × List String)), e.1 ≠ q.1 := by
    intro q _ e he; cases he
  have hmain := Urllib.foldl_addToDict_of_nodup (l.filter fun kv => kv.2 != "") [] hnd2 hdisj
  rw [List.nil_append] at hmain
  exact hmain

/-- The 39 field names of `SearchPayload`, i.e. the keys of its `asdict`. -/
theorem asdict_keys (p : Health.SearchPayload) : p.asdict.map Prod.fst =
    ["req_page", "listup", "search_drugnm_initial", "inner_search_word",
     "origin_cnt", "inner_search_flag", "inner_match_value", "input_drug_nm",
     "input_upsoNm", "cbx_sunbcnt", "cbx_class", "anchor_dosage_route_hidden",
     "mfds_cd", "mfds_cdword", "input_hiraingdcd", "search_sunb1",
     "search_sunb2", "search_sunb3", "sunb_equals1", "sunb_equals2",
     "sunb_equals3", "sunb_where1", "sunb_where2", "search_effect",
     "cbx_bohtype", "search_bohcode", "anchor_form_info_hidden",
     "cbx_narcotic", "atccode_val", "atccode_name", "kpic_atc_nm_opener",
     "kpic_atc_nm", "cbx_bio", "icode", "ori_search_word", "search_flag",
     "movefrom", "viewmode", "more"] := rfl

theorem parse_query_params_to_urlencoded (p : Health.SearchPayload)
    (hval : ∀ kv ∈ p.asdict, Urllib.qsClean kv.2 = true) :
    Health.parse_query_params p.to_urlencoded =
      (p.asdict.filter fun kv => kv.2 != "").map fun kv => (kv.1, Urllib.QVal.one kv.2) := by
  have hkeysClean : ∀ k ∈ p.asdict.map Prod.fst, Urllib.qsClean k = true := by
    rw [asdict_keys]; decide
  have hclean : ∀ kv ∈ p.asdict, Urllib.qsClean kv.1 = true ∧ Urllib.qsClean kv.2 = true :=
    fun kv hkv => ⟨hkeysClean _ (List.mem_map_of_mem _ hkv), hval kv hkv⟩
  have hnd : (p.asdict.map Prod.fst).Nodup := by rw [asdict_keys]; decide
  have hdrop : ((p.to_urlencoded).data.dropWhile fun c => c = '?') = (p.to_urlencoded).data := by
    have hdata : (p.to_urlencoded).data =
        'r' :: ("eq_page".data ++ '=' :: (toString p.req_page).data ++ '&' ::
          Health.ampJoin ((p.asdict.drop 1).map fun kv => kv.1.data ++ '=' :: kv.2.data)) := rfl
    rw [hdata, List.dropWhile_cons]
    simp
  have hdata2 : (p.to_urlencoded).data =
      Health.ampJoin (p.asdict.map fun kv => kv.1.data ++ '=' :: kv.2.data) := rfl
  rw [Health.parse_query_params, hdrop, hdata2, parse_qs_ampJoin p.asdict hclean hnd]
  rw [List.map_map]
  rfl

/-! ### Lemmas: pagination loops -/

theorem fetch_by_initial_aux_spec (pages : Nat → List Health.Medicine) :
    ∀ (k start fuel : Nat),
    (∀ i, i < k → pages (start + i) ≠ []) → pages (start + k) = [] → k < fuel →
    Health.fetch_by_initial_aux pages fuel start =
      some ((((List.range' start k).map pages).flatten), List.range' start (k + 1)) := by
  intro k
  induction k with
  | zero =>
    intro start fuel hne hempty hfuel
    match fuel, hfuel with
    | f + 1, _ =>
      have h0 : pages start = [] := by simpa using hempty
      simp [Health.fetch_by_initial_aux, h0, List.range']
  | succ j ih =>
    intro start fuel hne hempty hfuel
    match fuel, hfuel with
    | f + 1, hf =>
      have h0 : pages start ≠ [] := by simpa using hne 0 (Nat.succ_pos j)
      have harith : ∀ i : Nat, start + 1 + i = start + (i + 1) := by intro i; omega
      have hrec := ih (start + 1) f
        (fun i hi => by rw [harith i]; exact hne (i + 1) (Nat.succ_lt_succ hi))
        (by rw [harith j]; exact hempty)
        (Nat.lt_of_succ_lt_succ hf)
      rw [Health.fetch_by_initial_aux]
      simp only [h0, if_neg, hrec]
      simp [List.range', h0]

theorem nedrug_is_empty_iff (r : Nedrug.PageResult) :
    r.is_empty = true ↔ r.medicines = [] := by
  simp [Nedrug.PageResult.is_empty, List.length_eq_zero]

theorem fetch_aux_spec (pages : Nat → Nedrug.PageResult) :
    ∀ (k start fuel : Nat) (accM : List Nedrug.Medicine) (accP : List Nedrug.PageResult),
    (∀ i, i < k → (pages (start + i)).medicines ≠ [] ∧ (pages (start + i)).has_more = true) →
    (pages (start + k)).medicines = [] → k < fuel →
    Nedrug.fetch_aux pages fuel start accM accP =
      some ({ medicines := accM ++ (((List.range' start k).map fun i => (pages i).medicines).flatten),
              page_results := accP ++ (List.range' start k).map pages,
              total_pages := start + k + 1 }, List.range' start (k + 1)) := by
  intro k
  induction k with
  | zero =>
    intro start fuel accM accP hne hempty hfuel
    match fuel, hfuel with
    | f + 1, _ =>
      have h0 : (pages start).is_empty = true := by
        rw [nedrug_is_empty_iff]; simpa using hempty
      simp [Nedrug.fetch_aux, h0, List.range']
  | succ j ih =>
    intro start fuel accM accP hne hempty hfuel
    match fuel, hfuel with
    | f + 1, hf =>
      have h0 := hne 0 (Nat.succ_pos j)
      rw [Nat.add_zero] at h0
      have h0e : (pages start).is_empty = false := by
        rw [← Bool.not_eq_true, nedrug_is_empty_iff]; exact h0.1
      have harith : ∀ i : Nat, start + 1 + i = start + (i + 1) := by intro i; omega
      have hrec := ih (start + 1) f (accM ++ (pages start).medicines) (accP ++ [pages start])
        (fun i hi => by rw [harith i]; exact hne (i + 1) (Nat.succ_lt_succ hi))
        (by rw [harith j]; exact hempty)
        (Nat.lt_of_succ_lt_succ hf)
      rw [Nedrug.fetch_aux]
      simp only [h0e, h0.2, Bool.not_true, Bool.false_eq_true, if_false, hrec]
      simp [List.range']
      omega

/-! ### Lemmas: positional dictionary lookup -/

theorem dget_of_forall_ne {α : Type} (k : String) :
    ∀ (d : List (String × α)), (∀ e ∈ d, e.1 ≠ k) → dget d k = Option.none := by
  intro d
  induction d with
  | nil => intro _; rfl
  | cons e rest ih =>
    intro h
    have he : e.1 ≠ k := h e (List.mem_cons_self _ _)
    have hrest : ∀ x ∈ rest, x.1 ≠ k := fun x hx => h x (List.mem_cons_of_mem _ hx)
    cases e with
    | mk k0 v => simp [dget, ih hrest, he]

theorem dictZip_key_mem {α : Type} :
    ∀ (keys : List String) (row : List α) (kv : String × α),
    kv ∈ dictZip keys row → kv.1 ∈ keys := by
  intro keys
  induction keys with
  | nil => intro row kv h; simp [dictZip] at h
  | cons k0 ks ih =>
    intro row kv h
    cases row with
    | nil => simp [dictZip] at h
    | cons v vs =>
      rcases List.mem_cons.mp h with rfl | h2
      · exact List.mem_cons_self _ _
      · exact List.mem_cons_of_mem _ (ih vs kv h2)

theorem dget_dictZip_beyond {α : Type} :
    ∀ (keys : List String) (p : Nat) (row : List α) (k : String),
    keys.Nodup → keys.get? p = some k → row.length ≤ p →
    dget (dictZip keys row) k = Option.none := by
  intro keys
  induction keys with
  | nil => intro p row k _ hk _; simp at hk
  | cons k0 ks ih =>
    intro p row k hnd hk hlen
    cases row with
    | nil => simp [dictZip, dget]
    | cons v vs =>
      cases p with
      | zero => simp at hlen
      | succ q =>
        have hk' : ks.get? q = some k := hk
        have hlen' : vs.length ≤ q := by simpa using hlen
        have hnd' : ks.Nodup := (List.nodup_cons.mp hnd).2
        have hrec := ih q vs k hnd' hk' hlen'
        have hk0 : k0 ≠ k := by
          intro h; subst h
          exact (List.nodup_cons.mp hnd).1 (List.get?_mem hk')
        simp [dictZip, dget, hrec, hk0]

theorem dget_dictZip_at {α : Type} :
    ∀ (keys : List String) (p : Nat) (row : List α) (k : String),
    keys.Nodup → keys.get? p = some k → p < row.length →
    dget (dictZip keys row) k = row.get? p := by
  intro keys
  induction keys with
  | nil => intro p row k _ hk _; simp at hk
  | cons k0 ks ih =>
    intro p row k hnd hk hlen
    cases row with
    | nil => simp at hlen
    | cons v vs =>
      cases p with
      | zero =>
        have hkk : k0 = k := by simpa using hk
        subst hkk
        have hk0nin : k0 ∉ ks := (List.nodup_cons.mp hnd).1
        have hinner : dget (dictZip ks vs) k0 = Option.none :=
          dget_of_forall_ne _ _ (fun e he hcontra =>
            hk0nin (hcontra ▸ dictZip_key_mem ks vs e he))
        simp [dictZip, dget, hinner]
      | succ q =>
        have hk' : ks.get? q = some k := hk
        have hnd' : ks.Nodup := (List.nodup_cons.mp hnd).2
        have hlen' : q < vs.length := by simpa using hlen
        have hrec := ih q vs k hnd' hk' hlen'
        have hsome : vs[q]? = some (vs.get ⟨q, hlen'⟩) := by
          rw [← List.get?_eq_getElem?]; exact List.get?_eq_get hlen'
        simp [dictZip, dget, hrec, hsome]

/-! ### Lemmas: maximum-date selection -/

theorem maxByDate_mem : ∀ (t : List Hira.BoardItem) (h : Hira.BoardItem),
    Hira.maxByDate h t ∈ h :: t := by
  intro t
  induction t with
  | nil => intro h; simp [Hira.maxByDate]
  | cons y t ih =>
    intro h
    have hstep : Hira.maxByDate h (y :: t) =
        Hira.maxByDate (if h.date < y.date then y else h) t := rfl
    rw [hstep]
    by_cases hlt : h.date < y.date
    · rw [if_pos hlt]
      rcases List.mem_cons.mp (ih y) with heq | hmem
      · rw [heq]; exact List.mem_cons_of_mem _ (List.mem_cons_self _ _)
      · exact List.mem_cons_of_mem _ (List.mem_cons_of_mem _ hmem)
    · rw [if_neg hlt]
      rcases List.mem_cons.mp (ih h) with heq | hmem
      · rw [heq]; exact List.mem_cons_self _ _
      · exact List.mem_cons_of_mem _ (List.mem_cons_of_mem _ hmem)

theorem maxByDate_ub : ∀ (t : List Hira.BoardItem) (h x : Hira.BoardItem),
    x ∈ h :: t → x.date ≤ (Hira.maxByDate h t).date := by
  intro t
  induction t with
  | nil =>
    intro h x hx
    have hxh : x = h := by simpa using hx
    simp [Hira.maxByDate, hxh]
  | cons y t ih =>
    intro h x hx
    have hstep : Hira.maxByDate h (y :: t) =
        Hira.maxByDate (if h.date < y.date then y else h) t := rfl
    rw [hstep]
    rcases List.mem_cons.mp hx with rfl | hx2
    · by_cases hlt : x.date < y.date
      · rw [if_pos hlt]
        exact le_trans (le_of_lt hlt) (ih y y (List.mem_cons_self _ _))
      · rw [if_neg hlt]
        exact ih x x (List.mem_cons_self _ _)
    · rcases List.mem_cons.mp hx2 with rfl | hx3
      · by_cases hlt : h.date < x.date
        · rw [if_pos hlt]
          exact ih x x (List.mem_cons_self _ _)
        · rw [if_neg hlt]
          exact le_trans (le_of_not_lt hlt) (ih h h (List.mem_cons_self _ _))
      · by_cases hlt : h.date < y.date
        · rw [if_pos hlt]
          exact ih y x (List.mem_cons_of_mem _ hx3)
        · rw [if_neg hlt]
          exact ih h x (List.mem_cons_of_mem _ hx3)

/-! ### Lemmas: CSV rows -/

theorem save_rows_from_get? : ∀ (ms : List Health.Medicine) (start i : Nat),
    (Health.save_rows_from start ms)[i]? =
      (ms[i]?).map fun m => [toString (start + i), m.name.getD ""] := by
  intro ms
  induction ms with
  | nil => intro start i; simp [Health.save_rows_from]
  | cons m ms ih =>
    intro start i
    cases i with
    | zero => simp [Health.save_rows_from]
    | succ j =>
      have harith : start + 1 + j = start + (j + 1) := by omega
      simp [Health.save_rows_from, ih (start + 1) j, harith]

theorem save_rows_from_length : ∀ (ms : List Health.Medicine) (start : Nat),
    (Health.save_rows_from start ms).length = ms.length := by
  intro ms
  induction ms with
  | nil => intro _; rfl
  | cons m ms ih => intro start; simp [Health.save_rows_from, ih (start + 1)]

theorem save_full_rows_from_get? : ∀ (ms : List Health.Medicine) (start i : Nat),
    (Health.save_full_rows_from start ms)[i]? =
      (ms[i]?).map fun m =>
        toString (start + i) :: m.to_dict.map fun kv => kv.2.getD "" := by
  intro ms
  induction ms with
  | nil => intro start i; simp [Health.save_full_rows_from]
  | cons m ms ih =>
    intro start i
    cases i with
    | zero => simp [Health.save_full_rows_from]
    | succ j =>
      have harith : start + 1 + j = start + (j + 1) := by omega
      simp [Health.save_full_rows_from, ih (start + 1) j, harith]

theorem save_full_rows_from_length : ∀ (ms : List Health.Medicine) (start : Nat),
    (Health.save_full_rows_from start ms).length = ms.length := by
  intro ms
  induction ms with
  | nil => intro _; rfl
  | cons m ms ih => intro start; simp [Health.save_full_rows_from, ih (start + 1)]

/-! ### Claim theorems -/

/-- A sample parsed medicine used to instantiate the pagination and CSV
theorems at concrete inputs. -/
def sampleHealthMedicine : Health.Medicine :=
  { name := some "A", code := Option.none, ingredient := Option.none,
    effect := Option.none, company := Option.none, category := Option.none,
    form := Option.none, expert := Option.none, insurance := Option.none,
    bioequiv := Option.none, image := Option.none }

/-- A sample page sequence for the health crawler: page 1 holds one medicine,
every later page is empty. -/
def sampleHealthPages : Nat → List Health.Medicine :=
  fun i => if i = 1 then [sampleHealthMedicine] else []

/-- A sample nedrug medicine built by `from_tuple` from a two-cell row. -/
def sampleNedrugMedicine : Nedrug.Medicine :=
  Nedrug.Medicine.from_tuple [PyVal.str "c", PyVal.str "P"] Nedrug.GEMINI_KEYS 0

/-- A sample nedrug page sequence: page 0 non-empty with `has_more`, every
later page empty. -/
def sampleNedrugPages : Nat → Nedrug.PageResult :=
  fun i =>
    if i = 0 then
      { page_num := 0, filename := "f.xls", download_file := Option.none,
        medicines := [sampleNedrugMedicine], has_more := true }
    else
      { page_num := i, filename := "", download_file := Option.none,
        medicines := [], has_more := false }

/-- C1: for every sequence of page-fetch results, the pagination loop stops at
the first page that yields zero parsed records and issues no further fetch for
that search: health `DownloadParser._fetch_by_initial` returns the in-order
concatenation of the records of all pages before the first empty page (its
fetch trace is exactly pages `1..n`), and nedrug `DownloadParser.fetch`
likewise breaks out of its loop at the first empty `PageResult` (trace
`0..n`), accumulating exactly the pages before it. -/
theorem C1_pagination_stops_at_first_empty_page :
    (∀ (pages : Nat → List Health.Medicine) (n fuel : Nat),
      1 ≤ n → (∀ i, 1 ≤ i → i < n → pages i ≠ []) → pages n = [] → n ≤ fuel →
      Health.fetch_by_initial pages fuel =
        some ((((List.range' 1 (n - 1)).map pages).flatten), List.range' 1 n)) ∧
    (∀ (pages : Nat → Nedrug.PageResult) (n fuel : Nat),
      (∀ i, i < n → (pages i).medicines ≠ [] ∧ (pages i).has_more = true) →
      (pages n).medicines = [] → n < fuel →
      Nedrug.fetch pages fuel =
        some ({ medicines := (((List.range' 0 n).map fun i => (pages i).medicines).flatten),
                page_results := (List.range' 0 n).map pages,
                total_pages := n + 1 }, List.range' 0 (n + 1))) := by
  constructor
  · intro pages n fuel h1 hne hempty hfuel
    have hspec := fetch_by_initial_aux_spec pages (n - 1) 1 fuel
      (fun i hi => hne (1 + i) (by omega) (by omega))
      (by have h : 1 + (n - 1) = n := by omega
          rw [h]; exact hempty)
      (by omega)
    rw [Health.fetch_by_initial, hspec]
    have h : n - 1 + 1 = n := by omega
    rw [h]
  · intro pages n fuel hne hempty hfuel
    have hspec := fetch_aux_spec pages n 0 fuel [] []
      (fun i hi => by simpa using hne i hi)
      (by simpa using hempty) hfuel
    rw [Nedrug.fetch, hspec]
    simp

/-- Witness for C1 at a concrete two-page run of each crawler. -/
theorem C1_pagination_stops_at_first_empty_page_witness :
    Health.fetch_by_initial sampleHealthPages 2 =
      some ((((List.range' 1 1).map sampleHealthPages).flatten), List.range' 1 2) ∧
    Nedrug.fetch sampleNedrugPages 2 =
      some ({ medicines := (((List.range' 0 1).map fun i => (sampleNedrugPages i).medicines).flatten),
              page_results := (List.range' 0 1).map sampleNedrugPages,
              total_pages := 2 }, List.range' 0 2) := by
  constructor
  · exact C1_pagination_stops_at_first_empty_page.1 sampleHealthPages 2 2
      (by omega)
      (fun i hi1 hi2 => by
        have h : i = 1 := by omega
        subst h
        simp [sampleHealthPages])
      (by simp [sampleHealthPages])
      (by omega)
  · exact C1_pagination_stops_at_first_empty_page.2 sampleNedrugPages 1 2
      (fun i hi => by
        have h : i = 0 := by omega
        subst h
        constructor
        · simp [sampleNedrugPages]
        · simp [sampleNedrugPages])
      (by simp [sampleNedrugPages])
      (by omega)

/-- C3: `health.DownloadParser.fetch_all` iterates over `KOREAN_INITIALS[:1]`
only, so whatever the per-initial fetch does, exactly the first initial `ㄱ`
is processed and its medicines are the whole result — the other thirteen
initials (`KOREAN_INITIALS` has fourteen) are never requested. -/
theorem C3_fetch_all_processes_only_first_initial :
    ∀ (byInitial : String → List Health.Medicine),
      Health.fetch_all byInitial = (byInitial "ㄱ", ["ㄱ"]) ∧
      Health.KOREAN_INITIALS.length = 14 ∧
      Health.KOREAN_INITIALS.take 1 = ["ㄱ"] := by
  intro byInitial
  refine ⟨?_, rfl, rfl⟩
  simp [Health.fetch_all, Health.KOREAN_INITIALS]

/-- C6 counterexample: a `304 Not Modified` response is not `2xx`, yet
`HealthClient._get` returns it instead of raising — `raise_for_status` only
raises for `4xx`/`5xx`. -/
theorem C6_counterexample_304_returned :
    Health.client_get { status := 304 } =
      Except.ok { status := 304, encoding := some "utf-8" } ∧
    ¬(200 ≤ (304 : Nat) ∧ (304 : Nat) < 300) := by
  exact ⟨rfl, by decide⟩

/-- C6 (amended): every request through `HealthClient._get` / `_post` raises
an exception that propagates to the caller exactly when the response status is
`4xx` or `5xx` (`400 ≤ status < 600`), and otherwise — including the non-`2xx`
informational and redirect statuses — returns the response object with its
encoding set to UTF-8. -/
theorem C6_raise_for_status_amended :
    ∀ (r : Health.Resp),
      ((∃ e, Health.client_get r = Except.error e) ↔ 400 ≤ r.status ∧ r.status < 600) ∧
      (¬(400 ≤ r.status ∧ r.status < 600) →
        Health.client_get r = Except.ok { r with encoding := some "utf-8" }) ∧
      ((∃ e, Health.client_post r = Except.error e) ↔ 400 ≤ r.status ∧ r.status < 600) ∧
      (¬(400 ≤ r.status ∧ r.status < 600) →
        Health.client_post r = Except.ok { r with encoding := some "utf-8" }) := by
  intro r
  by_cases hc : 400 ≤ r.status ∧ r.status < 500
  · have hrange : 400 ≤ r.status ∧ r.status < 600 := by omega
    refine ⟨?_, ?_, ?_, ?_⟩
    · simp [Health.client_get, Health.raise_for_status, hc, hrange]
    · intro h; exact absurd hrange h
    · simp [Health.client_post, Health.raise_for_status, hc, hrange]
    · intro h; exact absurd hrange h
  · by_cases hs : 500 ≤ r.status ∧ r.status < 600
    · have hrange : 400 ≤ r.status ∧ r.status < 600 := by omega
      have h5 : ¬(r.status < 500) := by omega
      refine ⟨?_, ?_, ?_, ?_⟩
      · simp [Health.client_get, Health.raise_for_status, hc, hs, hrange, h5]
      · intro h; exact absurd hrange h
      · simp [Health.client_post, Health.raise_for_status, hc, hs, hrange, h5]
      · intro h; exact absurd hrange h
    · have hrange : ¬(400 ≤ r.status ∧ r.status < 600) := by omega
      refine ⟨?_, ?_, ?_, ?_⟩
      · simp [Health.client_get, Health.raise_for_status, hc, hs, hrange]
      · intro _; simp [Health.client_get, Health.raise_for_status, hc, hs]
      · simp [Health.client_post, Health.raise_for_status, hc, hs, hrange]
      · intro _; simp [Health.client_post, Health.raise_for_status, hc, hs]

/-- Witness for C6: a `404` raises, a `200` and a `304` are returned, a `503`
raises through `_post`. -/
theorem C6_raise_for_status_amended_witness :
    (Health.client_get { status := 404 }).isOk = false ∧
    Health.client_get { status := 200 } =
      Except.ok { status := 200, encoding := some "utf-8" } ∧
    (Health.client_post { status := 503 }).isOk = false ∧
    Health.client_post { status := 304 } =
      Except.ok { status := 304, encoding := some "utf-8" } := by
  refine ⟨?_, ?_, ?_, ?_⟩
  · obtain ⟨e, he⟩ := (C6_raise_for_status_amended { status := 404 }).1.mpr (by decide)
    rw [he]; rfl
  · exact (C6_raise_for_status_amended { status := 200 }).2.1 (by decide)
  · obtain ⟨e, he⟩ := (C6_raise_for_status_amended { status := 503 }).2.2.1.mpr (by decide)
    rw [he]; rfl
  · exact (C6_raise_for_status_amended { status := 304 }).2.2.2 (by decide)

/-- A header-free table row with a single data cell (which `_parse_row` pops
as the index column, leaving no positional cells). -/
def c2Row : Health.TableRow :=
  { thTexts := [], tdTexts := ["1"], idfyMatches := [], hrefMatches := [],
    imgSrcs := [] }

/-- The medicine `_parse_row` builds from `c2Row`. -/
def c2RowMedicine : Health.Medicine :=
  { name := some "", code := Option.none, ingredient := Option.none,
    effect := Option.none, company := Option.none, category := Option.none,
    form := Option.none, expert := Option.none, insurance := Option.none,
    bioequiv := Option.none, image := Option.none }

/-- C2 counterexample: with zero data cells the `name` field (position 0) is
set to the empty string `""`, not to `None` as the claim states — the same
holds for nedrug's `product_name` and hira's `name`/`address` defaults. -/
theorem C2_counterexample_name_empty_string :
    (Health.parse_row c2Row).map Health.Medicine.name = some (some "") ∧
    some "" ≠ (Option.none : Option String) := by
  exact ⟨rfl, by simp⟩

/-- C2 (amended): fields beyond the available cells are absent/null except
the required name fields, which default to the empty string: in
`MedicineTableParser._parse_row` every positional field at position `k ≥ 1`
is `None` whenever at most `k` data cells remain after dropping the first
cell, while `name` (position 0) defaults to `""`; in `Medicine.from_tuple`
(nedrug) every `Optional` field whose column key sits beyond the row's length
is `None` while `product_name` defaults to `""`; in `Hospital.from_tuple`
(hira) `opening_date` and `total_doctors` are `None` beyond the row's length
while `name` and `address` default to `""`. -/
theorem C2_missing_trailing_columns_amended :
    (∀ (row : Health.TableRow) (m : Health.Medicine) (k : Nat),
      Health.parse_row row = some m → 1 ≤ k → k ≤ 8 →
      (row.tdTexts.drop 1).length ≤ k →
      m.positional_fields[k]? = some Option.none) ∧
    (∀ (row : Health.TableRow) (m : Health.Medicine),
      Health.parse_row row = some m → row.tdTexts.length ≤ 1 → m.name = some "") ∧
    (∀ (row : List PyVal) (idx : Int),
      (row.length ≤ 2 →
        (Nedrug.Medicine.from_tuple row Nedrug.GEMINI_KEYS idx).product_name_eng = PyVal.none) ∧
      (row.length ≤ 3 →
        (Nedrug.Medicine.from_tuple row Nedrug.GEMINI_KEYS idx).company_name = PyVal.none) ∧
      (row.length ≤ 4 →
        (Nedrug.Medicine.from_tuple row Nedrug.GEMINI_KEYS idx).company_name_eng = PyVal.none) ∧
      (row.length ≤ 9 →
        (Nedrug.Medicine.from_tuple row Nedrug.GEMINI_KEYS idx).cancel_date = PyVal.none) ∧
      (row.length ≤ 25 →
        (Nedrug.Medicine.from_tuple row Nedrug.GEMINI_KEYS idx).atc_code = PyVal.none) ∧
      (row.length ≤ 1 →
        (Nedrug.Medicine.from_tuple row Nedrug.GEMINI_KEYS idx).product_name = PyVal.str "")) ∧
    (∀ (row : List PyVal) (idx : Int),
      (row.length ≤ 13 →
        (Hira.Hospital.from_tuple row Hira.HOSPITAL_KEYS idx).opening_date = PyVal.none) ∧
      (row.length ≤ 14 →
        (Hira.Hospital.from_tuple row Hira.HOSPITAL_KEYS idx).total_doctors = PyVal.none) ∧
      (row.length ≤ 1 →
        (Hira.Hospital.from_tuple row Hira.HOSPITAL_KEYS idx).name = PyVal.str "") ∧
      (row.length ≤ 10 →
        (Hira.Hospital.from_tuple row Hira.HOSPITAL_KEYS idx).address = PyVal.str "")) := by
  refine ⟨?_, ?_, ?_, ?_⟩
  · intro row m k hm hk1 hk8 hlen
    rw [Health.parse_row] at hm
    split_ifs at hm with h1 h2
    · dsimp only at hm
      rw [Option.some.injEq] at hm
      subst hm
      interval_cases k <;>
        simp_all [Health.Medicine.positional_fields, List.get?_eq_none]
  · intro row m hm hlen
    rw [Health.parse_row] at hm
    split_ifs at hm with h1 h2
    · dsimp only at hm
      rw [Option.some.injEq] at hm
      subst hm
      have hd : row.tdTexts[1]? = (Option.none : Option String) := by
        rw [← List.get?_eq_getElem?, List.get?_eq_none]
        omega
      simp [hd]
  · intro row idx
    refine ⟨?_, ?_, ?_, ?_, ?_, ?_⟩
    · intro h
      have hg : pyDictGet Nedrug.GEMINI_KEYS row "product_name_eng" = Option.none :=
        dget_dictZip_beyond Nedrug.GEMINI_KEYS 2 row "product_name_eng" (by decide) rfl h
      simp [Nedrug.Medicine.from_tuple, hg]
    · intro h
      have hg : pyDictGet Nedrug.GEMINI_KEYS row "company_name" = Option.none :=
        dget_dictZip_beyond Nedrug.GEMINI_KEYS 3 row "company_name" (by decide) rfl h
      simp [Nedrug.Medicine.from_tuple, hg]
    · intro h
      have hg : pyDictGet Nedrug.GEMINI_KEYS row "company_name_eng" = Option.none :=
        dget_dictZip_beyond Nedrug.GEMINI_KEYS 4 row "company_name_eng" (by decide) rfl h
      simp [Nedrug.Medicine.from_tuple, hg]
    · intro h
      have hg : pyDictGet Nedrug.GEMINI_KEYS row "cancel_date" = Option.none :=
        dget_dictZip_beyond Nedrug.GEMINI_KEYS 9 row "cancel_date" (by decide) rfl h
      simp [Nedrug.Medicine.from_tuple, hg]
    · intro h
      have hg : pyDictGet Nedrug.GEMINI_KEYS row "atc_code" = Option.none :=
        dget_dictZip_beyond Nedrug.GEMINI_KEYS 25 row "atc_code" (by decide) rfl h
      simp [Nedrug.Medicine.from_tuple, hg]
    · intro h
      have hg : pyDictGet Nedrug.GEMINI_KEYS row "product_name" = Option.none :=
        dget_dictZip_beyond Nedrug.GEMINI_KEYS 1 row "product_name" (by decide) rfl h
      simp [Nedrug.Medicine.from_tuple, hg]
  · intro row idx
    refine ⟨?_, ?_, ?_, ?_⟩
    · intro h
      have hg : pyDictGet Hira.HOSPITAL_KEYS row "opening_date" = Option.none :=
        dget_dictZip_beyond Hira.HOSPITAL_KEYS 13 row "opening_date" (by decide) rfl h
      simp [Hira.Hospital.from_tuple, hg]
    · intro h
      have hg : pyDictGet Hira.HOSPITAL_KEYS row "total_doctors" = Option.none :=
        dget_dictZip_beyond Hira.HOSPITAL_KEYS 14 row "total_doctors" (by decide) rfl h
      simp [Hira.Hospital.from_tuple, hg, Hira.parse_int]
    · intro h
      have hg : pyDictGet Hira.HOSPITAL_KEYS row "medical_institution_name" = Option.none :=
        dget_dictZip_beyond Hira.HOSPITAL_KEYS 1 row "medical_institution_name" (by decide) rfl h
      simp [Hira.Hospital.from_tuple, hg]
    · intro h
      have hg : pyDictGet Hira.HOSPITAL_KEYS row "address" = Option.none :=
        dget_dictZip_beyond Hira.HOSPITAL_KEYS 10 row "address" (by decide) rfl h
      simp [Hira.Hospital.from_tuple, hg]

/-- Witness for C2 at concrete short rows. -/
theorem C2_missing_trailing_columns_amended_witness :
    c2RowMedicine.positional_fields[1]? = some Option.none ∧
    c2RowMedicine.name = some "" ∧
    (Nedrug.Medicine.from_tuple [] Nedrug.GEMINI_KEYS 0).product_name_eng = PyVal.none ∧
    (Hira.Hospital.from_tuple [] Hira.HOSPITAL_KEYS 0).opening_date = PyVal.none := by
  refine ⟨?_, ?_, ?_, ?_⟩
  · exact C2_missing_trailing_columns_amended.1 c2Row c2RowMedicine 1 rfl
      (by decide) (by decide) (by decide)
  · exact C2_missing_trailing_columns_amended.2.1 c2Row c2RowMedicine rfl (by decide)
  · exact (C2_missing_trailing_columns_amended.2.2.1 [] 0).1 (by decide)
  · exact (C2_missing_trailing_columns_amended.2.2.2 [] 0).1 (by decide)

/-- A 15-cell spreadsheet row whose `total_doctors` cell (position 14) is the
non-numeric string `"abc"`. -/
def c5Row : List PyVal := List.replicate 14 (PyVal.str "x") ++ [PyVal.str "abc"]

/-- C5 counterexample: `Hospital.from_tuple` does not map the value at
position 14 to the field named by the 15th key (`total_doctors`): it stores
`int(value)` instead, which is `None` for the non-numeric cell `"abc"`. -/
theorem C5_counterexample_total_doctors_parsed :
    (Hira.Hospital.from_tuple c5Row Hira.HOSPITAL_KEYS 1).total_doctors = PyVal.none ∧
    c5Row[14]? = some (PyVal.str "abc") ∧
    PyVal.none ≠ PyVal.str "abc" := by
  refine ⟨by decide, by decide, by decide⟩

/-- C5 (amended): for every row tuple, each record field that is named by a
key of the fixed column mapping holds exactly the row value at that key's
position (positional zip of mapping keys with the row) — except
`Hospital.total_doctors`, which holds the integer parse of the positional
value — so the record contents are determined solely by the row values and
the declared key order.  (Fields whose lookup name is not a mapping key keep
their defaults.)  For `Medicine.from_tuple` with `GEMINI_COLUMNS` the
key-named fields are `product_name` (1), `product_name_eng` (2),
`company_name` (3), `company_name_eng` (4), `cancel_date` (9) and
`atc_code` (25); for `Hospital.from_tuple` with `HOSPITAL_COLUMNS` they are
`name` (1), `address` (10), `opening_date` (13) and `total_doctors` (14). -/
theorem C5_positional_mapping_amended :
    ∀ (row : List PyVal) (idx : Int),
      (∀ h : 1 < row.length,
        (Nedrug.Medicine.from_tuple row Nedrug.GEMINI_KEYS idx).product_name = row.get ⟨1, h⟩) ∧
      (∀ h : 2 < row.length,
        (Nedrug.Medicine.from_tuple row Nedrug.GEMINI_KEYS idx).product_name_eng = row.get ⟨2, h⟩) ∧
      (∀ h : 3 < row.length,
        (Nedrug.Medicine.from_tuple row Nedrug.GEMINI_KEYS idx).company_name = row.get ⟨3, h⟩) ∧
      (∀ h : 4 < row.length,
        (Nedrug.Medicine.from_tuple row Nedrug.GEMINI_KEYS idx).company_name_eng = row.get ⟨4, h⟩) ∧
      (∀ h : 9 < row.length,
        (Nedrug.Medicine.from_tuple row Nedrug.GEMINI_KEYS idx).cancel_date = row.get ⟨9, h⟩) ∧
      (∀ h : 25 < row.length,
        (Nedrug.Medicine.from_tuple row Nedrug.GEMINI_KEYS idx).atc_code = row.get ⟨25, h⟩) ∧
      (∀ h : 1 < row.length,
        (Hira.Hospital.from_tuple row Hira.HOSPITAL_KEYS idx).name = row.get ⟨1, h⟩) ∧
      (∀ h : 10 < row.length,
        (Hira.Hospital.from_tuple row Hira.HOSPITAL_KEYS idx).address = row.get ⟨10, h⟩) ∧
      (∀ h : 13 < row.length,
        (Hira.Hospital.from_tuple row Hira.HOSPITAL_KEYS idx).opening_date = row.get ⟨13, h⟩) ∧
      (∀ h : 14 < row.length,
        (Hira.Hospital.from_tuple row Hira.HOSPITAL_KEYS idx).total_doctors =
          Hira.parse_int (row.get ⟨14, h⟩)) := by
  intro row idx
  refine ⟨?_, ?_, ?_, ?_, ?_, ?_, ?_, ?_, ?_, ?_⟩ <;> intro h
  · have hg := dget_dictZip_at Nedrug.GEMINI_KEYS 1 row "product_name" (by decide) rfl h
    simp [Nedrug.Medicine.from_tuple, pyDictGet, hg, List.get?_eq_get h,
      List.getElem?_eq_getElem h]
  · have hg := dget_dictZip_at Nedrug.GEMINI_KEYS 2 row "product_name_eng" (by decide) rfl h
    simp [Nedrug.Medicine.from_tuple, pyDictGet, hg, List.get?_eq_get h,
      List.getElem?_eq_getElem h]
  · have hg := dget_dictZip_at Nedrug.GEMINI_KEYS 3 row "company_name" (by decide) rfl h
    simp [Nedrug.Medicine.from_tuple, pyDictGet, hg, List.get?_eq_get h,
      List.getElem?_eq_getElem h]
  · have hg := dget_dictZip_at Nedrug.GEMINI_KEYS 4 row "company_name_eng" (by decide) rfl h
    simp [Nedrug.Medicine.from_tuple, pyDictGet, hg, List.get?_eq_get h,
      List.getElem?_eq_getElem h]
  · have hg := dget_dictZip_at Nedrug.GEMINI_KEYS 9 row "cancel_date" (by decide) rfl h
    simp [Nedrug.Medicine.from_tuple, pyDictGet, hg, List.get?_eq_get h,
      List.getElem?_eq_getElem h]
  · have hg := dget_dictZip_at Nedrug.GEMINI_KEYS 25 row "atc_code" (by decide) rfl h
    simp [Nedrug.Medicine.from_tuple, pyDictGet, hg, List.get?_eq_get h,
      List.getElem?_eq_getElem h]
  · have hg := dget_dictZip_at Hira.HOSPITAL_KEYS 1 row "medical_institution_name" (by decide) rfl h
    simp [Hira.Hospital.from_tuple, pyDictGet, hg, List.get?_eq_get h,
      List.getElem?_eq_getElem h]
  · have hg := dget_dictZip_at Hira.HOSPITAL_KEYS 10 row "address" (by decide) rfl h
    simp [Hira.Hospital.from_tuple, pyDictGet, hg, List.get?_eq_get h,
      List.getElem?_eq_getElem h]
  · have hg := dget_dictZip_at Hira.HOSPITAL_KEYS 13 row "opening_date" (by decide) rfl h
    simp [Hira.Hospital.from_tuple, pyDictGet, hg, List.get?_eq_get h,
      List.getElem?_eq_getElem h]
  · have hg := dget_dictZip_at Hira.HOSPITAL_KEYS 14 row "total_doctors" (by decide) rfl h
    simp [Hira.Hospital.from_tuple, pyDictGet, hg, List.get?_eq_get h,
      List.getElem?_eq_getElem h]

/-- Witness for C5 at the concrete 15-cell row. -/
theorem C5_positional_mapping_amended_witness :
    (Nedrug.Medicine.from_tuple c5Row Nedrug.GEMINI_KEYS 0).product_name =
      c5Row.get ⟨1, by decide⟩ ∧
    (Hira.Hospital.from_tuple c5Row Hira.HOSPITAL_KEYS 0).total_doctors =
      Hira.parse_int (c5Row.get ⟨14, by decide⟩) := by
  exact ⟨(C5_positional_mapping_amended c5Row 0).1 (by decide),
         (C5_positional_mapping_amended c5Row 0).2.2.2.2.2.2.2.2.2 (by decide)⟩

/-- C4: any exception during the page download or parsing — and a response
with no extractable filename — is caught at the `_download_page` boundary and
converted into a `PageResult` with no medicines and `has_more = False`
(`_download_page` is a total function of its oracle, so no exception
escapes), and a page sequence hitting that sentinel at its first page makes
`fetch` end pagination immediately. -/
theorem C4_download_page_catches_exceptions :
    ∀ (page_num page_size : Nat) (env : Nedrug.PageEnv),
      ((∃ e, env.post = Except.error e) ∨
       (∃ r, env.post = Except.ok r ∧ (r.filename_extract.getD "").isEmpty = true) ∨
       (∃ e, env.parse_excel = Except.error e) ∨
       (∃ e, env.save_file = Except.error e)) →
      (Nedrug.download_page page_num page_size env).medicines = [] ∧
      (Nedrug.download_page page_num page_size env).has_more = false ∧
      (Nedrug.download_page page_num page_size env).download_file = Option.none ∧
      (∀ (pages : Nat → Nedrug.PageResult) (fuel : Nat),
        pages 0 = Nedrug.download_page page_num page_size env → 0 < fuel →
        Nedrug.fetch pages fuel =
          some ({ medicines := [], page_results := [], total_pages := 1 }, [0])) := by
  intro pn ps env h
  have hmain : (Nedrug.download_page pn ps env).medicines = [] ∧
      (Nedrug.download_page pn ps env).has_more = false ∧
      (Nedrug.download_page pn ps env).download_file = Option.none := by
    rcases hpost : env.post with e | r
    · simp [Nedrug.download_page, hpost, Bind.bind, Except.bind]
    · by_cases hfn : (r.filename_extract.getD "").isEmpty = true
      · simp [Nedrug.download_page, hpost, hfn, Bind.bind, Except.bind, Pure.pure, Except.pure]
      · rcases hparse : env.parse_excel with e2 | ex
        · simp [Nedrug.download_page, hpost, hfn, hparse, Bind.bind, Except.bind, Pure.pure,
            Except.pure]
        · obtain ⟨e3, hsave⟩ : ∃ e, env.save_file = Except.error e := by
            rcases h with ⟨e, he⟩ | ⟨r2, hr2, hfn2⟩ | ⟨e, he⟩ | he
            · rw [hpost] at he; exact absurd he (by simp)
            · rw [hpost] at hr2
              rw [Except.ok.injEq] at hr2
              subst hr2
              exact absurd hfn2 hfn
            · rw [hparse] at he; exact absurd he (by simp)
            · exact he
          by_cases hrows : ex.rows.length ≤ 1
          · simp [Nedrug.download_page, hpost, hfn, hparse, hrows, Bind.bind, Except.bind,
              Pure.pure, Except.pure]
          · simp [Nedrug.download_page, hpost, hfn, hparse, hrows, hsave, Bind.bind, Except.bind,
              Pure.pure, Except.pure, Functor.map, Except.map]
  refine ⟨hmain.1, hmain.2.1, hmain.2.2, ?_⟩
  intro pages fuel hp hf
  have hspec := fetch_aux_spec pages 0 0 fuel [] []
    (fun i hi => absurd hi (Nat.not_lt_zero i))
    (by rw [Nat.add_zero, hp]; exact hmain.1)
    (by omega)
  rw [Nedrug.fetch, hspec]
  simp [List.range']

/-- The environment of a page download whose HTTP POST raised. -/
def c4Env : Nedrug.PageEnv :=
  { post := Except.error "ConnectionError",
    parse_excel := Except.error "not reached",
    save_file := Except.ok () }

/-- Witness for C4: a raised POST yields the empty sentinel and ends the
pagination loop at page 0. -/
theorem C4_download_page_catches_exceptions_witness :
    (Nedrug.download_page 0 10000 c4Env).medicines = [] ∧
    (Nedrug.download_page 0 10000 c4Env).has_more = false ∧
    (Nedrug.download_page 0 10000 c4Env).download_file = Option.none ∧
    Nedrug.fetch (fun _ => Nedrug.download_page 0 10000 c4Env) 1 =
      some ({ medicines := [], page_results := [], total_pages := 1 }, [0]) := by
  have h := C4_download_page_catches_exceptions 0 10000 c4Env
    (Or.inl ⟨"ConnectionError", rfl⟩)
  exact ⟨h.1, h.2.1, h.2.2.1, h.2.2.2 _ 1 rfl (by omega)⟩

/-- The field names of the health `Medicine` record, in declaration order
(the keys of `to_dict`). -/
def Health.field_names : List String :=
  ["name", "code", "ingredient", "effect", "company", "category", "form",
   "expert", "insurance", "bioequiv", "image"]

theorem health_to_dict_keys (m : Health.Medicine) :
    m.to_dict.map Prod.fst = Health.field_names := rfl

/-- C7 counterexample: for the empty medicine list `save_full` returns before
opening the file, so no CSV — not even a header row — is written, while the
claim promises a header followed by zero rows. -/
theorem C7_counterexample_save_full_empty :
    Health.save_full ([] : List Health.Medicine) = Option.none ∧
    (Option.none : Option (List (List String))) ≠ some [("id" :: Health.field_names)] := by
  exact ⟨rfl, by simp⟩

/-- C7 (amended): `MedicineCsvWriter.save` writes the header `["id","name"]`
followed by exactly one `[i, name]` row per medicine with `i` the 1-based
position; `save_full` does the same with header `"id"` plus every `Medicine`
field and one full-field row per medicine — but only for a non-empty list,
writing no file at all when the list is empty; nedrug
`DownloadParser.save_to_csv` writes the two-column schema with each
medicine's stored id. -/
theorem C7_csv_schema_amended :
    (∀ ms : List Health.Medicine,
      (Health.save ms)[0]? = some ["id", "name"] ∧
      (Health.save ms).length = ms.length + 1 ∧
      (∀ i : Nat, (Health.save ms)[i + 1]? =
        (ms[i]?).map fun m => [toString (i + 1), m.name.getD ""])) ∧
    (∀ (ms : List Health.Medicine) (m0 : Health.Medicine) (tl : List Health.Medicine),
      ms = m0 :: tl →
      Health.save_full ms = some (("id" :: Health.field_names) :: Health.save_full_rows_from 1 ms) ∧
      (("id" :: Health.field_names) :: Health.save_full_rows_from 1 ms).length = ms.length + 1 ∧
      (∀ i : Nat, (Health.save_full_rows_from 1 ms)[i]? =
        (ms[i]?).map fun m => toString (i + 1) :: m.to_dict.map fun kv => kv.2.getD "")) ∧
    Health.save_full ([] : List Health.Medicine) = Option.none ∧
    (∀ ms : List Nedrug.Medicine,
      (Nedrug.save_to_csv ms)[0]? = some ["id", "name"] ∧
      (Nedrug.save_to_csv ms).length = ms.length + 1 ∧
      (∀ i : Nat, (Nedrug.save_to_csv ms)[i + 1]? =
        (ms[i]?).map fun m => [toString m.id, m.product_name.cell])) := by
  refine ⟨?_, ?_, rfl, ?_⟩
  · intro ms
    refine ⟨by simp [Health.save], ?_, ?_⟩
    · simp [Health.save, save_rows_from_length]
    · intro i
      rw [show Health.save ms = ["id", "name"] :: Health.save_rows_from 1 ms from rfl,
          List.getElem?_cons_succ, save_rows_from_get?]
      simp [Nat.add_comm 1 i]
  · intro ms m0 tl hms
    subst hms
    refine ⟨rfl, ?_, ?_⟩
    · simp [save_full_rows_from_length]
    · intro i
      rw [save_full_rows_from_get?]
      simp [Nat.add_comm 1 i]
  · intro ms
    refine ⟨by simp [Nedrug.save_to_csv], ?_, ?_⟩
    · simp [Nedrug.save_to_csv]
    · intro i
      rw [show Nedrug.save_to_csv ms =
            ["id", "name"] :: (ms.map fun m => [toString m.id, m.product_name.cell]) from rfl,
          List.getElem?_cons_succ, List.getElem?_map]

/-- Witness for C7 at a one-element list. -/
theorem C7_csv_schema_amended_witness :
    (Health.save [sampleHealthMedicine])[1]? = some ["1", "A"] ∧
    Health.save_full [sampleHealthMedicine] =
      some (("id" :: Health.field_names) ::
        Health.save_full_rows_from 1 [sampleHealthMedicine]) ∧
    (Nedrug.save_to_csv [sampleNedrugMedicine])[1]? = some ["0", "P"] := by
  refine ⟨?_, ?_, ?_⟩
  · have h := (C7_csv_schema_amended.1 [sampleHealthMedicine]).2.2 0
    simpa [sampleHealthMedicine] using h
  · exact (C7_csv_schema_amended.2.1 [sampleHealthMedicine] sampleHealthMedicine [] rfl).1
  · have h := (C7_csv_schema_amended.2.2.2 [sampleNedrugMedicine]).2.2 0
    rw [h]
    rfl

/-- C8: every failure in the hira open-data flow is converted into an empty
result rather than propagating: `_get_latest_download_code` returns `None` on
any exception, `_download_file` returns `None` on any exception (including
the `TypeError` from `unquote(None)` when no filename could be extracted),
and `OpenDataParser.fetch` returns `None` — performing no extraction or
parsing step — whenever no download code or file could be obtained. -/
theorem C8_opendata_failures_become_empty_results :
    ∀ (env : Hira.OpenEnv),
      ((∃ e, env.start_page = Except.error e) →
        Hira.get_latest_download_code env = Option.none) ∧
      ((∃ e, env.download = Except.error e) →
        Hira.download_file_fn env = Option.none) ∧
      (∀ content : List Nat, env.download = Except.ok (Option.none, content) →
        Hira.download_file_fn env = Option.none) ∧
      (Hira.download_latest_file env = Option.none →
        Hira.opendata_fetch env = (Option.none, [])) ∧
      (Hira.get_latest_download_code env = Option.none →
        Hira.opendata_fetch env = (Option.none, [])) := by
  intro env
  refine ⟨?_, ?_, ?_, ?_, ?_⟩
  · rintro ⟨e, he⟩
    simp [Hira.get_latest_download_code, he]
  · rintro ⟨e, he⟩
    simp [Hira.download_file_fn, he]
  · intro content hc
    simp [Hira.download_file_fn, hc]
  · intro hdl
    simp [Hira.opendata_fetch, hdl]
  · intro hcode
    have hdl : Hira.download_latest_file env = Option.none := by
      simp [Hira.download_latest_file, hcode]
    simp [Hira.opendata_fetch, hdl]

/-- An open-data environment whose page fetch and download both raised. -/
def c8Env : Hira.OpenEnv :=
  { start_page := Except.error "Timeout",
    download := Except.error "Timeout",
    extract := [],
    parse_hospital_file := Option.none,
    parse_pharmacy_file := Option.none }

/-- Witness for C8 at a fully failing environment. -/
theorem C8_opendata_failures_become_empty_results_witness :
    Hira.get_latest_download_code c8Env = Option.none ∧
    Hira.download_file_fn c8Env = Option.none ∧
    Hira.opendata_fetch c8Env = (Option.none, []) := by
  have h := C8_opendata_failures_become_empty_results c8Env
  have h1 := h.1 ⟨"Timeout", rfl⟩
  exact ⟨h1, h.2.1 ⟨"Timeout", rfl⟩, h.2.2.2.2 h1⟩

/-- C10: `DownloadResult.latest_item` is `None` exactly on an empty board,
otherwise it is a board item whose date string is maximal under string
comparison; and the bulletin-board `DownloadParser.fetch` downloads exactly
the bulletin number of that same maximum-date item and carries the full
board list, so its result's `latest_item` is that item. -/
theorem C10_latest_item_is_max_date :
    (∀ r : Hira.DownloadResult,
      (r.latest_item = Option.none ↔ r.board_items = []) ∧
      (∀ b, r.latest_item = some b →
        b ∈ r.board_items ∧ ∀ x ∈ r.board_items, x.date ≤ b.date)) ∧
    (∀ (env : Hira.FetchEnv) (h : Hira.BoardItem) (t : List Hira.BoardItem),
      env.board_items = h :: t →
      (Hira.board_fetch env).2 = some (Hira.maxByDate h t).brd_blt_no ∧
      (∀ res, (Hira.board_fetch env).1 = some res →
        res.latest_item = some (Hira.maxByDate h t) ∧
        res.board_items = env.board_items)) := by
  constructor
  · intro r
    constructor
    · cases hb : r.board_items with
      | nil => simp [Hira.DownloadResult.latest_item, hb]
      | cons h t => simp [Hira.DownloadResult.latest_item, hb]
    · intro b hbl
      cases hb : r.board_items with
      | nil => rw [Hira.DownloadResult.latest_item, hb] at hbl; exact absurd hbl (by simp)
      | cons h t =>
        rw [Hira.DownloadResult.latest_item, hb] at hbl
        rw [Option.some.injEq] at hbl
        subst hbl
        exact ⟨maxByDate_mem t h, fun x hx => maxByDate_ub t h x hx⟩
  · intro env h t hbe
    have hfetch : Hira.board_fetch env =
        match env.download (Hira.maxByDate h t).brd_blt_no with
        | Option.none => (Option.none, some (Hira.maxByDate h t).brd_blt_no)
        | some download_file =>
          (some { filename := download_file.filename, excel_data := env.excel_result,
                  board_items := env.board_items },
           some (Hira.maxByDate h t).brd_blt_no) := by
      rw [Hira.board_fetch, hbe]
    cases hdl : env.download (Hira.maxByDate h t).brd_blt_no with
    | none =>
      rw [hfetch, hdl]
      exact ⟨rfl, fun res hres => absurd hres (by simp)⟩
    | some df =>
      rw [hfetch, hdl]
      refine ⟨rfl, ?_⟩
      intro res hres
      rw [Option.some.injEq] at hres
      subst hres
      constructor
      · show Hira.DownloadResult.latest_item
            { filename := df.filename, excel_data := env.excel_result,
              board_items := env.board_items } = _
        rw [Hira.DownloadResult.latest_item]
        simp only [hbe]
      · rfl

/-- Two board items, the second with the later date. -/
def c10ItemOld : Hira.BoardItem :=
  { title := "old", brd_blt_no := "100", date := "2024.01.01" }

def c10ItemNew : Hira.BoardItem :=
  { title := "new", brd_blt_no := "200", date := "2024.01.02" }

/-- A board-fetch environment over the two sample items whose download always
succeeds. -/
def c10Env : Hira.FetchEnv :=
  { board_items := [c10ItemOld, c10ItemNew],
    download := fun _ => some { filename := "f.zip", content := [1],
                                file_type := Hira.FileType.zip },
    excel_result := { filename := "f.xlsx", rows := [] } }

/-- Witness for C10: the later-dated item is selected and downloaded. -/
theorem C10_latest_item_is_max_date_witness :
    (Hira.board_fetch c10Env).2 = some "200" ∧
    (∀ res, (Hira.board_fetch c10Env).1 = some res →
      res.latest_item = some c10ItemNew) := by
  have h := C10_latest_item_is_max_date.2 c10Env c10ItemOld [c10ItemNew] rfl
  have hlt : c10ItemOld.date < c10ItemNew.date := by
    rw [String.lt_iff_toList_lt]; decide
  have hmax : Hira.maxByDate c10ItemOld [c10ItemNew] = c10ItemNew := by
    rw [show Hira.maxByDate c10ItemOld [c10ItemNew] =
          if c10ItemOld.date < c10ItemNew.date then c10ItemNew else c10ItemOld from rfl,
        if_pos hlt]
  constructor
  · rw [h.1, hmax]; rfl
  · intro res hres
    have hlat := (h.2 res hres).1
    rw [hmax] at hlat
    exact hlat

/-- C9 counterexample: for the payload whose initial filter is the string
`"a&b"`, the unencoded ampersand splits the pair, so the parsed dictionary
maps the field to `"a"` instead of its string value `"a&b"` — the round trip
of the claim fails. -/
theorem C9_counterexample_ampersand_value :
    Health.parse_query_params
        (Health.SearchPayload.to_urlencoded { search_drugnm_initial := "a&b" }) ≠
      ((Health.SearchPayload.asdict { search_drugnm_initial := "a&b" }).filter
        fun kv => kv.2 != "").map (fun kv => (kv.1, Urllib.QVal.one kv.2)) ∧
    (Health.parse_query_params
        (Health.SearchPayload.to_urlencoded { search_drugnm_initial := "a&b" })).filter
        (fun kv => kv.1 == "search_drugnm_initial") =
      [("search_drugnm_initial", Urllib.QVal.one "a")] := by
  constructor
  · decide
  · decide

/-- C9 (amended): for every `SearchPayload` none of whose rendered field
values contains one of the characters `&`, `=`, `%`, `+`, parsing
`to_urlencoded()` with `parse_query_params` yields exactly the fields with a
non-empty string value, in declaration order, each mapped to its string
value; blank fields are absent, so the round trip recovers the payload only
when no field is blank.  (Without the character restriction the round trip
can change values, as the counterexample shows.) -/
theorem C9_round_trip_amended :
    ∀ (p : Health.SearchPayload),
      (∀ kv ∈ p.asdict, Urllib.qsClean kv.2 = true) →
      Health.parse_query_params p.to_urlencoded =
        (p.asdict.filter fun kv => kv.2 != "").map fun kv => (kv.1, Urllib.QVal.one kv.2) :=
  fun p h => parse_query_params_to_urlencoded p h

/-- Witness for C9 at the default payload. -/
theorem C9_round_trip_amended_witness :
    Health.parse_query_params (Health.SearchPayload.to_urlencoded {}) =
      ((Health.SearchPayload.asdict {}).filter fun kv => kv.2 != "").map
        fun kv => (kv.1, Urllib.QVal.one kv.2) :=
  C9_round_trip_amended {} (by decide)
